import Mathlib

/-!
Shallow embedding of the GradCafe scraper core of this repository
(src/module_2/scrape.py, src/module_4/src/scrape.py, src/module_5/src/scrape.py),
together with theorems settling the frozen claims about it.

Modelling conventions:
* Python dict records become the structure `Entry` (field names follow the
  source's key spellings where Lean allows).
* BeautifulSoup row objects are modelled structurally by `Row`: the list of
  top-level `<td>` cells (each with its flattened text and its `<span>` texts),
  the hrefs of the `<a>` anchors in document order, the row's flattened text,
  and the text of the first `<p>` element if any.
* The regexes RESULT_HREF_RE, TERM_RE, GPA_RE, GRE_V_RE, GRE_Q_RE, GRE_AW_RE
  and the two citizenship word searches are implemented directly over
  `List Char`, with Python `re` semantics (leftmost match, ordered alternation,
  greedy quantifiers with backtracking, ASCII word characters).
* Thread-pool completion order is modelled by an explicit scheduler choice at
  every loop iteration; machine integers are `Nat`, floats only appear as the
  backoff base delays, modelled as `ℚ`.
-/

/-- One scraped admissions-result record, as built by `_parse_page` /
`_extract_single_record` (dict keys `result_id`, `url`, `university`,
`program`, `Degree`, `date_added`, `status`, `term`, `US/International`,
`GPA`, `GRE V Score`, `GRE Score`, `GRE AW`, `comments`). -/
structure Entry where
  result_id : Option String
  url : String
  university : String
  program : String
  degree : Option String
  date_added : Option String
  status : Option String
  term : Option String
  us_intl : Option String
  gpa : Option String
  gre_v : Option String
  gre_q : Option String
  gre_aw : Option String
  comments : String
deriving DecidableEq, Repr

/-- A top-level `<td>` cell of a row: its flattened text
(`get_text(" ", strip=True)`) and the texts of its `<span>` elements. -/
structure Td where
  text : String
  spans : List String
deriving DecidableEq, Repr

/-- A `<tr>` row of the record container, modelled structurally:
`tds` are the direct-child `<td>` cells, `anchors` the href values of all
`<a>` elements in the row in document order, `text` the row's flattened text
(`get_text(" ", strip=True)`), `pText` the stripped text of the first `<p>`
element when one exists. -/
structure Row where
  tds : List Td
  anchors : List String
  text : String
  pText : Option String
deriving DecidableEq, Repr

/-! ### Character classes (Python `re`, ASCII range) -/

/-- Python `\w` (ASCII): letters, digits, underscore. -/
def isWordChar (c : Char) : Bool := c.isAlphanum || c = '_'

/-- Python `\s` (ASCII): space, tab, newline, carriage return, vertical tab,
form feed. -/
def isSpaceChar (c : Char) : Bool :=
  c = ' ' || c = '\t' || c = '\n' || c = '\r' || c = '\x0b' || c = '\x0c'

/-- A word boundary `\b` holds before the scan position when the previous
character (if any) is a non-word character and the next is a word character,
or vice versa; here specialised to "previous side is non-word". -/
def boundaryBefore : Option Char → Bool
  | none => true
  | some c => !isWordChar c

/-- A word boundary `\b` holds after a word character when the following
character is absent or a non-word character; `afterIsWord` tells whether the
character following the match position is a word character. -/
def afterIsWord : List Char → Bool
  | [] => false
  | c :: _ => isWordChar c

/-- Case-insensitive literal match at the head of the input (Python `re.I`);
returns the matched original characters and the rest. -/
def stripCI : List Char → List Char → Option (List Char × List Char)
  | [], cs => some ([], cs)
  | _ :: _, [] => none
  | p :: ps, c :: cs =>
    if c.toLower = p.toLower then
      match stripCI ps cs with
      | some (m, r) => some (c :: m, r)
      | none => none
    else none

/-- `RESULT_HREF_RE = ^/result/(\d+)$`: match a whole href and return the
digit group. -/
def resultHrefDigits (href : String) : Option String :=
  let cs := href.toList
  if cs.take 8 = "/result/".toList ∧ cs.drop 8 ≠ [] ∧ (cs.drop 8).all Char.isDigit then
    some (String.mk (cs.drop 8))
  else none

/-- `tr.find("a", href=RESULT_HREF_RE)`: the first anchor href of the row that
matches RESULT_HREF_RE, if any. -/
def rowHref (r : Row) : Option String :=
  r.anchors.find? (fun h => (resultHrefDigits h).isSome)

/-- The digit group of the row's result link (`m.group(1)`). -/
def rowLink (r : Row) : Option String :=
  match rowHref r with
  | some h => resultHrefDigits h
  | none => none

/-! ### TERM_RE = `\b(Fall|Spring|Summer)\s+\d{4}\b` (re.I), group(0) -/

/-- Ordered alternation `(Fall|Spring|Summer)` at the head of the input. -/
def seasonAt (cs : List Char) : Option (List Char × List Char) :=
  match stripCI "fall".toList cs with
  | some r => some r
  | none =>
    match stripCI "spring".toList cs with
    | some r => some r
    | none => stripCI "summer".toList cs

/-- Try to match TERM_RE starting exactly at the head of `cs`, `prev` being
the character before the position. Returns the matched text (group 0). -/
def termAt (prev : Option Char) (cs : List Char) : Option String :=
  if !boundaryBefore prev then none
  else
    match seasonAt cs with
    | none => none
    | some (season, r1) =>
      let sp := r1.takeWhile isSpaceChar
      let r2 := r1.dropWhile isSpaceChar
      if sp = [] then none
      else
        match r2 with
        | d1 :: d2 :: d3 :: d4 :: rest =>
          if d1.isDigit ∧ d2.isDigit ∧ d3.isDigit ∧ d4.isDigit ∧ !afterIsWord rest then
            some (String.mk (season ++ sp ++ [d1, d2, d3, d4]))
          else none
        | _ => none

/-- `TERM_RE.search`: scan start positions left to right. -/
def termSearchAux : Option Char → List Char → Option String
  | _, [] => none
  | prev, c :: rest =>
    match termAt prev (c :: rest) with
    | some m => some m
    | none => termSearchAux (some c) rest

/-- `TERM_RE.search(blob)`, returning `group(0)`. -/
def termSearch (s : String) : Option String := termSearchAux none s.toList

/-! ### GPA_RE = `\bGPA\s*([0-4]\.\d{1,2}|[0-4])\b` (re.I), group(1) -/

/-- Character class `[0-4]`. -/
def isZeroToFour (c : Char) : Bool := '0' ≤ c && c ≤ '4'

/-- First GPA alternative `[0-4]\.\d{1,2}` with the trailing `\b` of the
pattern, greedy `\d{1,2}` backtracking from two digits to one. -/
def gpaAlt1 : List Char → Option String
  | d :: '.' :: d1 :: rest =>
    if isZeroToFour d ∧ d1.isDigit then
      match rest with
      | d2 :: rest2 =>
        if d2.isDigit ∧ !afterIsWord rest2 then some (String.mk [d, '.', d1, d2])
        else if !afterIsWord rest then some (String.mk [d, '.', d1])
        else none
      | [] => some (String.mk [d, '.', d1])
    else none
  | _ => none

/-- Second GPA alternative `[0-4]` with the trailing `\b` of the pattern. -/
def gpaAlt2 : List Char → Option String
  | d :: rest => if isZeroToFour d ∧ !afterIsWord rest then some (String.mk [d]) else none
  | [] => none

/-- Try to match GPA_RE at the head of `cs`; returns group 1. The alternation
is tried in source order, each alternative checked against the trailing `\b`
(so for example "GPA 3.85x" matches the second alternative with group "3"). -/
def gpaAt (prev : Option Char) (cs : List Char) : Option String :=
  if !boundaryBefore prev then none
  else
    match stripCI "gpa".toList cs with
    | none => none
    | some (_, r1) =>
      let r2 := r1.dropWhile isSpaceChar
      match gpaAlt1 r2 with
      | some m => some m
      | none => gpaAlt2 r2

/-- `GPA_RE.search`: scan start positions left to right. -/
def gpaSearchAux : Option Char → List Char → Option String
  | _, [] => none
  | prev, c :: rest =>
    match gpaAt prev (c :: rest) with
    | some m => some m
    | none => gpaSearchAux (some c) rest

/-- `GPA_RE.search(blob)`, returning `group(1)`. -/
def gpaSearch (s : String) : Option String := gpaSearchAux none s.toList

/-! ### GRE_V_RE / GRE_Q_RE = `\bV\s*[:\-]?\s*(\d{2,3})\b`, group(1) -/

/-- After the letter: `\s*[:\-]?\s*` with greedy, non-overlapping classes. -/
def skipSepSpaces (cs : List Char) : List Char :=
  let r1 := cs.dropWhile isSpaceChar
  match r1 with
  | c :: rest => if c = ':' ∨ c = '-' then rest.dropWhile isSpaceChar else r1
  | [] => r1

/-- `(\d{2,3})\b`: greedy three digits backtracking to two against the
trailing boundary. -/
def digits23 (cs : List Char) : Option String :=
  match cs with
  | d1 :: d2 :: rest =>
    if d1.isDigit ∧ d2.isDigit then
      match rest with
      | d3 :: rest2 =>
        if d3.isDigit ∧ !afterIsWord rest2 then some (String.mk [d1, d2, d3])
        else if !afterIsWord rest then some (String.mk [d1, d2])
        else none
      | [] => some (String.mk [d1, d2])
    else none
  | _ => none

/-- Try `\b<letter>\s*[:\-]?\s*(\d{2,3})\b` at the head of `cs` for a
one-letter prefix (used with "v" and "q"); returns group 1. -/
def greLetterAt (letter : Char) (prev : Option Char) (cs : List Char) : Option String :=
  if !boundaryBefore prev then none
  else
    match cs with
    | c :: rest => if c.toLower = letter then digits23 (skipSepSpaces rest) else none
    | [] => none

/-- Scan for the GRE letter pattern, leftmost match. -/
def greLetterSearchAux (letter : Char) : Option Char → List Char → Option String
  | _, [] => none
  | prev, c :: rest =>
    match greLetterAt letter prev (c :: rest) with
    | some m => some m
    | none => greLetterSearchAux letter (some c) rest

/-- `GRE_V_RE.search(blob)`, returning `group(1)`. -/
def greVSearch (s : String) : Option String := greLetterSearchAux 'v' none s.toList

/-- `GRE_Q_RE.search(blob)`, returning `group(1)`. -/
def greQSearch (s : String) : Option String := greLetterSearchAux 'q' none s.toList

/-! ### GRE_AW_RE = `\bAW\s*[:\-]?\s*([\d.]+)\b`, group(1) -/

/-- Character class `[\d.]`. -/
def isDigitOrDot (c : Char) : Bool := c.isDigit || c = '.'

/-- Greedy `([\d.]+)\b` backtracking: try the run from longest to shortest
against the trailing boundary. `rev` is the candidate run reversed, `after`
the characters following it. -/
def awPickRev : List Char → List Char → Option (List Char)
  | [], _ => none
  | x :: revRest, after =>
    if isWordChar x ≠ afterIsWord after then some ((x :: revRest).reverse)
    else awPickRev revRest (x :: after)

/-- Try GRE_AW_RE at the head of `cs`; returns group 1. -/
def awAt (prev : Option Char) (cs : List Char) : Option String :=
  if !boundaryBefore prev then none
  else
    match stripCI "aw".toList cs with
    | none => none
    | some (_, r1) =>
      let r2 := skipSepSpaces r1
      let run := r2.takeWhile isDigitOrDot
      let after := r2.dropWhile isDigitOrDot
      match awPickRev run.reverse after with
      | some m => some (String.mk m)
      | none => none

/-- `GRE_AW_RE.search`: scan start positions left to right. -/
def awSearchAux : Option Char → List Char → Option String
  | _, [] => none
  | prev, c :: rest =>
    match awAt prev (c :: rest) with
    | some m => some m
    | none => awSearchAux (some c) rest

/-- `GRE_AW_RE.search(blob)`, returning `group(1)`. -/
def awSearch (s : String) : Option String := awSearchAux none s.toList

/-! ### Citizenship: `re.search(r"\bInternational\b", blob, re.I)` etc. -/

/-- Try a whole case-insensitive word with boundaries on both sides at the
head of `cs`. -/
def wordAt (w : List Char) (prev : Option Char) (cs : List Char) : Bool :=
  boundaryBefore prev &&
    match stripCI w cs with
    | some (_, rest) => !afterIsWord rest
    | none => false

/-- Scan for a whole word, case-insensitively. -/
def wordSearchAux (w : List Char) : Option Char → List Char → Bool
  | _, [] => false
  | prev, c :: rest =>
    wordAt w prev (c :: rest) || wordSearchAux w (some c) rest

/-- `re.search(r"\b<word>\b", s, re.I)` as a Bool. -/
def wordSearch (w : String) (s : String) : Bool := wordSearchAux w.toList none s.toList

/-- The `US/International` classification of `_parse_page` / `_parse_scores`:
"International" wins over "American", neither keyword gives `None`. -/
def usIntlOf (blob : String) : Option String :=
  if wordSearch "international" blob then some "International"
  else if wordSearch "american" blob then some "American"
  else none

/-! ### Row grouping and record extraction (§ `_parse_page` of module_2,
`_extract_single_record` / `_get_detail_blob` / `_get_metadata` /
`_parse_scores` of module_5) -/

/-- The two-part main-row test used both to start a record and to stop the
detail scan: at least 4 direct `<td>` cells and a result link present. -/
def isMainRow (r : Row) : Bool :=
  decide (4 ≤ r.tds.length) && (rowHref r).isSome

/-- `tds[i].get_text(" ", strip=True)` with the out-of-range case mapped to
the empty cell (never hit at main rows, which have at least four cells). -/
def tdText (r : Row) (i : Nat) : String := (r.tds.getD i ⟨"", []⟩).text

/-- The `<span>` texts of the program cell `tds[1]`. -/
def progSpans (r : Row) : List String := (r.tds.getD 1 ⟨"", []⟩).spans

/-- module_2 detail scan (inner `while j < len(rows)` loop): consume rows
until the next main row, collecting each row's nonempty flattened text into
the chunk list and remembering the last nonempty `<p>` text as the comment.
Returns (detail blob, comment, remaining rows). -/
def scanDetailM2 : List Row → List String → String → String × String × List Row
  | [], acc, com => (String.intercalate " " acc, com, [])
  | r :: rest, acc, com =>
    if isMainRow r then (String.intercalate " " acc, com, r :: rest)
    else
      scanDetailM2 rest
        (acc ++ (if r.text = "" then [] else [r.text]))
        (match r.pText with
         | some t => if t = "" then com else t
         | none => com)

/-- module_5 `_get_detail_blob`: same scan, but the comment is overwritten by
every row that has a `<p>` element (even with empty text). -/
def scanDetailM5 : List Row → List String → String → String × String × List Row
  | [], acc, com => (String.intercalate " " acc, com, [])
  | r :: rest, acc, com =>
    if isMainRow r then (String.intercalate " " acc, com, r :: rest)
    else
      scanDetailM5 rest
        (acc ++ (if r.text = "" then [] else [r.text]))
        (match r.pText with
         | some t => t
         | none => com)

/-- The record dict built from a main row in module_2's `_parse_page`
(lines 155–228): identifier from the result link, primary cells, program and
degree from the spans of `tds[1]`, pattern-extracted fields from the detail
blob, and the comment. -/
def entryOfM2 (r : Row) (blob comment : String) : Entry :=
  { result_id := rowLink r
    url := "https://www.thegradcafe.com" ++ (rowHref r).getD ""
    university := tdText r 0
    program :=
      match progSpans r with
      | [] => (r.tds.getD 1 ⟨"", []⟩).text
      | s :: _ => s
    degree := (progSpans r).get? 1
    date_added := if 3 ≤ r.tds.length then some (tdText r 2) else none
    status := if 4 ≤ r.tds.length then some (tdText r 3) else none
    term := termSearch blob
    us_intl := usIntlOf blob
    gpa := gpaSearch blob
    gre_v := greVSearch blob
    gre_q := greQSearch blob
    gre_aw := awSearch blob
    comments := comment }

/-- The record dict built by module_5's `_extract_single_record` together with
`_get_metadata` and `_parse_scores`; at main rows `tds[2]` and `tds[3]` are
always read. -/
def entryOfM5 (r : Row) (blob comment : String) : Entry :=
  { result_id := rowLink r
    url := "https://www.thegradcafe.com" ++ (rowHref r).getD ""
    university := tdText r 0
    program :=
      match progSpans r with
      | [] => (r.tds.getD 1 ⟨"", []⟩).text
      | s :: _ => s
    degree := (progSpans r).get? 1
    date_added := some (tdText r 2)
    status := some (tdText r 3)
    term := termSearch blob
    us_intl := usIntlOf blob
    gpa := gpaSearch blob
    gre_v := greVSearch blob
    gre_q := greQSearch blob
    gre_aw := awSearch blob
    comments := comment }

/-- module_2's outer row loop (`while i < len(rows)`): skip non-main rows,
and at each main row consume its detail rows and emit one record. The fuel
argument starts at the row count and strictly dominates the number of loop
iterations, each of which consumes at least one row. -/
def parseRowsM2Aux (fuel : Nat) (rows : List Row) : List Entry :=
  match fuel, rows with
  | 0, _ => []
  | _, [] => []
  | fuel + 1, r :: rest =>
    if isMainRow r then
      match scanDetailM2 rest [] "" with
      | (blob, comment, rest2) => entryOfM2 r blob comment :: parseRowsM2Aux fuel rest2
    else parseRowsM2Aux fuel rest

/-- module_2 `_parse_page` record extraction over a row list. -/
def parseRowsM2 (rows : List Row) : List Entry := parseRowsM2Aux rows.length rows

/-- module_5's outer row loop (`while idx < len(rows)` with
`_extract_single_record`). -/
def parseRowsM5Aux (fuel : Nat) (rows : List Row) : List Entry :=
  match fuel, rows with
  | 0, _ => []
  | _, [] => []
  | fuel + 1, r :: rest =>
    if isMainRow r then
      match scanDetailM5 rest [] "" with
      | (blob, comment, rest2) => entryOfM5 r blob comment :: parseRowsM5Aux fuel rest2
    else parseRowsM5Aux fuel rest

/-- module_5 `_parse_page` record extraction over a row list. -/
def parseRowsM5 (rows : List Row) : List Entry := parseRowsM5Aux rows.length rows

/-- The outcome of a fetched-and-parsed page as returned by `_parse_page`:
`ok` with the extracted entries, `empty`, or `error` (fetch failure, worker
exception, or parse exception). -/
inductive PageRes where
  | ok (es : List Entry)
  | empty
  | error
deriving DecidableEq, Repr

/-- The input to the parse step: a failed fetch, or a fetched document whose
`soup.find("tbody")` yields either nothing or a list of direct-child rows. -/
inductive Fetched where
  | failed
  | page (tbody : Option (List Row))
deriving DecidableEq, Repr

/-- module_2 `_parse_page` (lines 126–234): fetch failure gives `error`;
a missing `tbody` or an empty row list gives `empty`; otherwise the row loop
runs and the status is `ok`. -/
def parsePageM2 : Fetched → PageRes
  | .failed => .error
  | .page none => .empty
  | .page (some rows) =>
    if rows.isEmpty then .empty else .ok (parseRowsM2 rows)

/-- module_5 `_parse_page` (lines 180–199): fetch failure gives `error`;
only a missing `tbody` gives `empty`; a present `tbody` always yields `ok`,
even with zero rows. -/
def parsePageM5 : Fetched → PageRes
  | .failed => .error
  | .page none => .empty
  | .page (some rows) => .ok (parseRowsM5 rows)

/-! ### Fetcher with retry (`_fetch_html`) -/

/-- Outcome of one `urllib.request.urlopen` attempt: a successful read, an
HTTPError with a status code, a URLError (network-level), or any other
exception raised during the attempt. -/
inductive AttemptRes where
  | success
  | httpErr (code : Nat)
  | netErr
  | otherErr
deriving DecidableEq, Repr

/-- The status codes module_2/module_4 retry on:
`e.code in (429, 500, 502, 503, 504)`. -/
def retryB (c : Nat) : Bool :=
  c == 429 || c == 500 || c == 502 || c == 503 || c == 504

/-- The base backoff delay slept before the next attempt:
`(2 ** attempt) * 0.6` (the added `random.uniform(0.0, 0.4)` jitter is
outside the base delay). -/
def baseDelay (attempt : Nat) : ℚ := (2 : ℚ) ^ attempt * (3 / 5)

/-- The observable trace of one `_fetch_html` call: whether a body was
returned, how many attempts were performed, and the base backoff delays
slept after failed attempts, in order. -/
structure FetchTrace where
  ok : Bool
  attempts : Nat
  delays : List ℚ
deriving DecidableEq, Repr

/-- module_2/module_4 `_fetch_html` retry loop
(`for attempt in range(self.max_retries + 1)`), driven by an oracle giving
the outcome of each attempt. An HTTPError with a non-retryable code returns
`None` immediately; retryable HTTP codes, URLError and any other exception
sleep a backoff and continue. -/
def fetchM2Aux (oracle : Nat → AttemptRes) : Nat → Nat → FetchTrace
  | 0, _ => ⟨false, 0, []⟩
  | fuel + 1, att =>
    match oracle att with
    | .success => ⟨true, 1, []⟩
    | .httpErr c =>
      if retryB c then
        match fetchM2Aux oracle fuel (att + 1) with
        | t => ⟨t.ok, t.attempts + 1, baseDelay att :: t.delays⟩
      else ⟨false, 1, []⟩
    | .netErr =>
      match fetchM2Aux oracle fuel (att + 1) with
      | t => ⟨t.ok, t.attempts + 1, baseDelay att :: t.delays⟩
    | .otherErr =>
      match fetchM2Aux oracle fuel (att + 1) with
      | t => ⟨t.ok, t.attempts + 1, baseDelay att :: t.delays⟩

/-- module_2/module_4 `_fetch_html` with `max_retries` retries. -/
def fetchM2 (oracle : Nat → AttemptRes) (maxRetries : Nat) : FetchTrace :=
  fetchM2Aux oracle (maxRetries + 1) 0

/-- module_5 `_fetch_html` retry loop: the single
`except (urllib.error.URLError, TimeoutError, Exception)` clause catches
every failure (HTTPError is a URLError subclass), so every failed attempt
sleeps a backoff and continues. -/
def fetchM5Aux (oracle : Nat → AttemptRes) : Nat → Nat → FetchTrace
  | 0, _ => ⟨false, 0, []⟩
  | fuel + 1, att =>
    match oracle att with
    | .success => ⟨true, 1, []⟩
    | _ =>
      match fetchM5Aux oracle fuel (att + 1) with
      | t => ⟨t.ok, t.attempts + 1, baseDelay att :: t.delays⟩

/-- module_5 `_fetch_html` with `retries` retries. -/
def fetchM5 (oracle : Nat → AttemptRes) (maxRetries : Nat) : FetchTrace :=
  fetchM5Aux oracle (maxRetries + 1) 0

/-- An attempt outcome that module_2/module_4 retry after: a rate-limit or
listed server-error status, or a network-level failure. -/
def retryableOut (r : AttemptRes) : Prop :=
  (∃ c, r = .httpErr c ∧ retryB c = true) ∨ r = .netErr ∨ r = .otherErr

/-! ### Checkpoint load at startup (module_2 `__init__`,
module_5 `_load_existing_data`) -/

/-- What reading the checkpoint file at startup can yield: no file, an
unreadable file (OSError), invalid JSON, a JSON `null` body
(`json.load(f) or []`), or a JSON array of records. -/
inductive CkptFile where
  | missing
  | unreadable
  | invalidJson
  | jsonNull
  | valid (rs : List Entry)
deriving DecidableEq, Repr

/-- The seen-id seeding loop: `rid = (r or {}).get("result_id")` followed by
`if rid: self._seen_ids.add(str(rid))` — only truthy ids enter the set. -/
def seedSeen (rs : List Entry) : Finset String :=
  rs.foldl
    (fun s r =>
      match r.result_id with
      | some t => if t = "" then s else insert t s
      | none => s)
    ∅

/-- Result of startup checkpoint loading: the seeded record list, the seeded
seen-id set, and the resume cursor (start page). module_2 `__init__`
lines 68–82: a missing file keeps the fresh state; any load failure is
caught and resets to the fresh state with page 1 (never propagated); a JSON
`null` is coerced to `[]`; a valid array seeds everything and sets
`start_page = len(results) // 20 + 1`. -/
def loadM2 : CkptFile → List Entry × Finset String × Nat
  | .missing => ([], ∅, 1)
  | .unreadable => ([], ∅, 1)
  | .invalidJson => ([], ∅, 1)
  | .jsonNull => ([], ∅, 1)
  | .valid rs => (rs, seedSeen rs, rs.length / 20 + 1)

/-- module_5 `_load_existing_data` lines 62–75: identical observable state;
on `json.JSONDecodeError`/`OSError` the records and seen set are reset and
the start page keeps its initial value 1. -/
def loadM5 : CkptFile → List Entry × Finset String × Nat
  | .missing => ([], ∅, 1)
  | .unreadable => ([], ∅, 1)
  | .invalidJson => ([], ∅, 1)
  | .jsonNull => ([], ∅, 1)
  | .valid rs => (rs, seedSeen rs, rs.length / 20 + 1)

/-! ### Atomic checkpoint save (`save_data`) -/

/-- Contents of a file path in the model: no file, an interrupted (truncated)
serialization of a record list, or the complete JSON-array serialization of a
record list. -/
inductive FileVal where
  | absent
  | midwrite (rs : List Entry) (k : Nat)
  | complete (rs : List Entry)
deriving DecidableEq, Repr

/-- The two paths `save_data` touches: the real checkpoint path and the
temporary path `output_file + ".tmp"`. -/
structure FS where
  real : FileVal
  tmp : FileVal
deriving DecidableEq, Repr

/-- Where an interrupted `save_data` stops: before opening the temporary
file, right after `open(tmp, "w")` truncates it, mid way through
`json.dump` (after k units written), after the dump completes, or after
`os.replace(tmp, output_file)`. -/
inductive SaveStop where
  | beforeOpen
  | opened
  | midWrite (k : Nat)
  | written
  | replaced
deriving DecidableEq, Repr

/-- `save_data` (module_2 lines 302–306, module_5 lines 242–247): write the
full serialization of `rs` to the temporary path, then atomically replace
the real path with it; `stop` is the point at which execution is cut off.
Only the final `os.replace` ever mutates the real path. -/
def save_data (rs : List Entry) (fs : FS) : SaveStop → FS
  | .beforeOpen => fs
  | .opened => { fs with tmp := .midwrite rs 0 }
  | .midWrite k => { fs with tmp := .midwrite rs k }
  | .written => { fs with tmp := .complete rs }
  | .replaced => { real := .complete rs, tmp := .absent }

/-- A sequence of (possibly interrupted) checkpoint writes. -/
def runSaves (fs : FS) (ops : List (List Entry × SaveStop)) : FS :=
  ops.foldl (fun s op => save_data op.1 s op.2) fs

/-- Whether a file value parses as a JSON array: exactly the complete
serializations do. -/
def isCompleteArray : FileVal → Bool
  | .complete _ => true
  | _ => false

/-! ### Crawl orchestrator (`scrape_data`) -/

/-- The deduplication key computed in module_2's merge:
`str((e or {}).get("result_id") or "")` — a missing or empty id becomes "". -/
def ridM2 (e : Entry) : String :=
  match e.result_id with
  | some s => s
  | none => ""

/-- The deduplication key computed in module_5's merge:
`str(item.get("result_id", ""))` — a present-but-`None` id becomes the
Python string "None", an empty string stays empty. -/
def ridM5 (e : Entry) : String :=
  match e.result_id with
  | some s => s
  | none => "None"

/-- One iteration of module_2's merge loop body: skip the entry when its key
is empty or already seen, otherwise add the key to the seen set and append
the entry to the results. -/
def mergeOneM2 (acc : List Entry × Finset String) (e : Entry) : List Entry × Finset String :=
  if ridM2 e = "" ∨ ridM2 e ∈ acc.2 then acc
  else (acc.1 ++ [e], insert (ridM2 e) acc.2)

/-- module_2's merge of one page's entries under the lock. -/
def mergeAllM2 (results : List Entry) (seen : Finset String) (es : List Entry) :
    List Entry × Finset String :=
  es.foldl mergeOneM2 (results, seen)

/-- One iteration of module_5's merge loop body
(`if rid and rid not in self._seen_ids`). -/
def mergeOneM5 (acc : List Entry × Finset String) (e : Entry) : List Entry × Finset String :=
  if ridM5 e = "" ∨ ridM5 e ∈ acc.2 then acc
  else (acc.1 ++ [e], insert (ridM5 e) acc.2)

/-- module_5's merge of one page's entries under the lock. -/
def mergeAllM5 (results : List Entry) (seen : Finset String) (es : List Entry) :
    List Entry × Finset String :=
  es.foldl mergeOneM5 (results, seen)

/-- The entries carried by a page outcome (`empty` and `error` carry none). -/
def entriesOf : PageRes → List Entry
  | .ok es => es
  | .empty => []
  | .error => []

/-- `status == "ok" and entries`: the page outcome that resets the bad
counter and triggers a merge. -/
def prodB : PageRes → Bool
  | .ok es => !es.isEmpty
  | .empty => false
  | .error => false

/-- The crawl loop state of `scrape_data`: accumulated results, seen-id set,
consecutive-bad-page counter, completed-page count, the next page number to
submit, the in-flight page numbers, and whether the loop has exited. -/
structure CrawlSt where
  results : List Entry
  seen : Finset String
  bad : Nat
  pagesDone : Nat
  nextPage : Nat
  pending : List Nat
  halted : Bool
deriving DecidableEq

/-- The state after priming: `max_workers` initial page tasks starting at the
resume cursor, `next_page` advanced past them. -/
def initSt (start workers : Nat) : CrawlSt :=
  { results := []
    seen := ∅
    bad := 0
    pagesDone := 0
    nextPage := start + workers
    pending := (List.range workers).map (fun i => start + i)
    halted := false }

/-- module_2's consecutive-bad-page ceiling:
`max_consecutive_bad = max(12, self.max_workers * 4)`. -/
def maxBadM2 (workers : Nat) : Nat := max 12 (workers * 4)

/-- One iteration of module_2's `scrape_data` loop (lines 250–297), with the
completed future chosen by the scheduler index `choice` (reduced modulo the
number of in-flight tasks). First the `while` condition is evaluated: an
empty in-flight set or a reached target exits the loop. Otherwise the chosen
page's outcome is classified: a productive page (`ok` with entries) resets
the bad counter and merges under the lock; anything else increments it.
Reaching the ceiling clears the in-flight set and breaks; otherwise, if the
target is still unreached, exactly one replacement task is submitted. -/
def stepM2 (oracle : Nat → PageRes) (target maxBad : Nat) (st : CrawlSt) (choice : Nat) :
    CrawlSt :=
  if st.halted then st
  else if st.pending.length = 0 ∨ target ≤ st.results.length then { st with halted := true }
  else
    let idx := choice % st.pending.length
    let p := st.pending.getD idx 0
    let rest := st.pending.eraseIdx idx
    let res := oracle p
    let merged :=
      if prodB res then mergeAllM2 st.results st.seen (entriesOf res)
      else (st.results, st.seen)
    let bad2 := if prodB res then 0 else st.bad + 1
    if maxBad ≤ bad2 then
      { results := merged.1, seen := merged.2, bad := bad2, pagesDone := st.pagesDone + 1,
        nextPage := st.nextPage, pending := [], halted := true }
    else if merged.1.length < target then
      { results := merged.1, seen := merged.2, bad := bad2, pagesDone := st.pagesDone + 1,
        nextPage := st.nextPage + 1, pending := rest ++ [st.nextPage], halted := false }
    else
      { results := merged.1, seen := merged.2, bad := bad2, pagesDone := st.pagesDone + 1,
        nextPage := st.nextPage, pending := rest, halted := false }

/-- Iterated module_2 crawl loop from a state, one completed task per step,
the scheduler choosing which in-flight task completes. -/
def runM2 (oracle : Nat → PageRes) (target maxBad : Nat) (sched : Nat → Nat) (st : CrawlSt) :
    Nat → CrawlSt
  | 0 => st
  | n + 1 =>
    runM2 oracle target maxBad (fun i => sched (i + 1))
      (stepM2 oracle target maxBad st (sched 0)) n

/-- One iteration of module_5's `scrape_data` loop (lines 211–233): same
classification and merge, but there is no break at a ceiling — a replacement
task is submitted only while `consecutive_bad < 20` and the target is
unreached, and the loop ends when the in-flight set drains. -/
def stepM5 (oracle : Nat → PageRes) (target : Nat) (st : CrawlSt) (choice : Nat) : CrawlSt :=
  if st.halted then st
  else if st.pending.length = 0 ∨ target ≤ st.results.length then { st with halted := true }
  else
    let idx := choice % st.pending.length
    let p := st.pending.getD idx 0
    let rest := st.pending.eraseIdx idx
    let res := oracle p
    let merged :=
      if prodB res then mergeAllM5 st.results st.seen (entriesOf res)
      else (st.results, st.seen)
    let bad2 := if prodB res then 0 else st.bad + 1
    if bad2 < 20 ∧ merged.1.length < target then
      { results := merged.1, seen := merged.2, bad := bad2, pagesDone := st.pagesDone + 1,
        nextPage := st.nextPage + 1, pending := rest ++ [st.nextPage], halted := false }
    else
      { results := merged.1, seen := merged.2, bad := bad2, pagesDone := st.pagesDone + 1,
        nextPage := st.nextPage, pending := rest, halted := false }

/-- Iterated module_5 crawl loop. -/
def runM5 (oracle : Nat → PageRes) (target : Nat) (sched : Nat → Nat) (st : CrawlSt) :
    Nat → CrawlSt
  | 0 => st
  | n + 1 =>
    runM5 oracle target (fun i => sched (i + 1)) (stepM5 oracle target st (sched 0)) n

/-- A page-content source feeding module_2's parser: what an execution of the
crawl sees is always the parse of some fetched page. -/
def oracleOfM2 (pages : Nat → Fetched) : Nat → PageRes :=
  fun p => parsePageM2 (pages p)

/-- A page-content source feeding module_5's parser. -/
def oracleOfM5 (pages : Nat → Fetched) : Nat → PageRes :=
  fun p => parsePageM5 (pages p)

/-! ### Concrete fixtures and proof-side definitions -/

/-- A record with the given identifier and all other fields blank, used for
concrete crawl scenarios. -/
def mkE (rid : Option String) : Entry :=
  ⟨rid, "", "", "", none, none, none, none, none, none, none, none, none, ""⟩

/-- The main row of the spec's parsing example: identifier link
`/result/12345`, institution "Test University", program cell with the two
sub-labels "Computer Science" and "PhD". -/
def mainRow6 : Row :=
  ⟨[⟨"Test University", []⟩,
    ⟨"Computer Science PhD", ["Computer Science", "PhD"]⟩,
    ⟨"January 15, 2025", []⟩,
    ⟨"Accepted", []⟩],
   ["/result/12345"],
   "Test University Computer Science PhD January 15, 2025 Accepted",
   none⟩

/-- The detail row of the spec's parsing example. -/
def detailRow6 : Row := ⟨[], [], "Fall 2025 GPA 3.8 International", none⟩

/-- The record the spec's parsing example must produce. -/
def expected6 : Entry :=
  ⟨some "12345", "https://www.thegradcafe.com/result/12345", "Test University",
   "Computer Science", some "PhD", some "January 15, 2025", some "Accepted",
   some "Fall 2025", some "International", some "3.8", none, none, none, ""⟩

/-- A page source where pages 1 and 3 each carry the same single record
(id "1") and every other page is empty: page 3 re-observes a record already
captured from page 1. -/
def oracleC4 : Nat → PageRes :=
  fun p => if p = 1 ∨ p = 3 then .ok [mkE (some "1")] else .empty

/-- The all-empty page source. -/
def oracleEmpty : Nat → PageRes := fun _ => PageRes.empty

/-- The first-in-first-out completion schedule. -/
def fifoSched : Nat → Nat := fun _ => 0

/-- Number of in-flight pages whose outcome is productive. -/
def pendGood (oracle : Nat → PageRes) (st : CrawlSt) : Nat :=
  (st.pending.filter (fun p => prodB (oracle p))).length

/-- Termination potential for a page source that is non-productive beyond
page `K`: productive in-flight pages plus not-yet-submitted page numbers up
to `K`. -/
def potC (oracle : Nat → PageRes) (K : Nat) (st : CrawlSt) : Nat :=
  pendGood oracle st + (K + 1 - st.nextPage)

/-- Ranking function for module_2's crawl loop: strictly decreases at every
non-final step. -/
def measC (oracle : Nat → PageRes) (K maxBad : Nat) (st : CrawlSt) : Nat :=
  (maxBad + 1) * potC oracle K st + (maxBad - st.bad)

/-- Ranking function for module_5's crawl loop (fixed ceiling 20, loop ends
by draining). -/
def measC5 (oracle : Nat → PageRes) (K : Nat) (st : CrawlSt) : Nat :=
  21 * potC oracle K st + (20 - st.bad) + st.pending.length

/-- Loop invariant of module_2's crawl used for the termination claim:
a live state has exactly `workers` in-flight tasks and a counter below the
ceiling, a halted state has counter exactly at the ceiling, and the record
count is bounded through the potential (so the target, chosen beyond the
page source's total yield, is never reached). -/
def invC2 (oracle : Nat → PageRes) (K E workers maxBad C0 : Nat) (st : CrawlSt) : Prop :=
  (st.halted = false → st.pending.length = workers) ∧
  (st.halted = false → st.bad < maxBad) ∧
  (st.halted = true → st.bad = maxBad) ∧
  st.results.length + E * potC oracle K st ≤ C0

/-- The accumulation invariant of module_2's crawl state: result ids are
pairwise distinct and nonempty, and every result id is in the seen set. -/
def accInvM2 (acc : List Entry × Finset String) : Prop :=
  (acc.1.map ridM2).Nodup ∧ (∀ e ∈ acc.1, ridM2 e ≠ "") ∧ ∀ e ∈ acc.1, ridM2 e ∈ acc.2

/-- An entry whose identifier is present and nonempty — what both parsers
always produce, since the identifier comes from the `(\d+)` group of the
result link. -/
def goodEntry (e : Entry) : Prop := ∃ s, e.result_id = some s ∧ s ≠ ""

/-- The accumulation invariant of module_5's crawl state. -/
def accInvM5 (acc : List Entry × Finset String) : Prop :=
  (acc.1.map ridM5).Nodup ∧ (∀ e ∈ acc.1, goodEntry e) ∧ ∀ e ∈ acc.1, ridM5 e ∈ acc.2

/-! ## Supporting lemmas and claim theorems -/

theorem seedSeen_go (rs : List Entry) (init : Finset String) (s : String) :
    (s ∈ rs.foldl
      (fun t r =>
        match r.result_id with
        | some u => if u = "" then t else insert u t
        | none => t) init) ↔
      s ∈ init ∨ ∃ r ∈ rs, r.result_id = some s ∧ s ≠ "" := by
  induction rs generalizing init with
  | nil => simp
  | cons r t ih =>
    rw [List.foldl_cons, ih]
    cases h : r.result_id with
    | none =>
      simp only [h, List.mem_cons]
      constructor
      · intro hs
        rcases hs with hs | ⟨r', hr', hid, hne⟩
        · exact Or.inl hs
        · exact Or.inr ⟨r', Or.inr hr', hid, hne⟩
      · intro hs
        rcases hs with hs | ⟨r', hr', hid, hne⟩
        · exact Or.inl hs
        · rcases hr' with rfl | hr'
          · rw [h] at hid
            exact absurd hid (by simp)
          · exact Or.inr ⟨r', hr', hid, hne⟩
    | some u =>
      by_cases hu : u = ""
      · simp only [if_pos hu, List.mem_cons]
        constructor
        · intro hs
          rcases hs with hs | ⟨r', hr', hid, hne⟩
          · exact Or.inl hs
          · exact Or.inr ⟨r', Or.inr hr', hid, hne⟩
        · intro hs
          rcases hs with hs | ⟨r', hr', hid, hne⟩
          · exact Or.inl hs
          · rcases hr' with rfl | hr'
            · rw [h] at hid
              subst hu
              exact absurd (Option.some_injective _ hid).symm hne
            · exact Or.inr ⟨r', hr', hid, hne⟩
      · simp only [if_neg hu, Finset.mem_insert, List.mem_cons]
        constructor
        · intro hs
          rcases hs with (rfl | hs) | ⟨r', hr', hid, hne⟩
          · exact Or.inr ⟨r, Or.inl rfl, h, hu⟩
          · exact Or.inl hs
          · exact Or.inr ⟨r', Or.inr hr', hid, hne⟩
        · intro hs
          rcases hs with hs | ⟨r', hr', hid, hne⟩
          · exact Or.inl (Or.inr hs)
          · rcases hr' with rfl | hr'
            · rw [h] at hid
              exact Or.inl (Or.inl (Option.some_injective _ hid).symm)
            · exact Or.inr ⟨r', hr', hid, hne⟩

theorem mem_seedSeen (rs : List Entry) (s : String) :
    s ∈ seedSeen rs ↔ (∃ r ∈ rs, r.result_id = some s) ∧ s ≠ "" := by
  unfold seedSeen
  rw [seedSeen_go]
  constructor
  · rintro (hs | ⟨r, hr, hid, hne⟩)
    · simp at hs
    · exact ⟨⟨r, hr, hid⟩, hne⟩
  · rintro ⟨⟨r, hr, hid⟩, hne⟩
    exact Or.inr ⟨r, hr, hid, hne⟩

theorem runSaves_complete (ops : List (List Entry × SaveStop)) :
    ∀ r0 t0, ∃ rs, (runSaves ⟨FileVal.complete r0, t0⟩ ops).real = FileVal.complete rs := by
  induction ops with
  | nil => exact fun r0 _ => ⟨r0, rfl⟩
  | cons op t ih =>
    intro r0 t0
    obtain ⟨rs1, stop⟩ := op
    cases stop with
    | beforeOpen => exact ih r0 t0
    | opened => exact ih r0 (FileVal.midwrite rs1 0)
    | midWrite k => exact ih r0 (FileVal.midwrite rs1 k)
    | written => exact ih r0 (FileVal.complete rs1)
    | replaced => exact ih rs1 FileVal.absent

/-- C9: an unreadable or invalid-JSON checkpoint at startup is discarded — the crawl starts fresh with empty records, an empty seen-id set and resume cursor 1, the failure never propagating (the load functions are total); a readable valid checkpoint seeds the records and the truthy ids and sets the resume cursor to floor(records/20) + 1, in both module_2 and module_5. -/
theorem c9_checkpoint_startup :
    (loadM2 CkptFile.unreadable = ([], ∅, 1) ∧ loadM2 CkptFile.invalidJson = ([], ∅, 1) ∧
     loadM5 CkptFile.unreadable = ([], ∅, 1) ∧ loadM5 CkptFile.invalidJson = ([], ∅, 1)) ∧
    (∀ rs, (loadM2 (CkptFile.valid rs)).1 = rs ∧
      (loadM2 (CkptFile.valid rs)).2.2 = rs.length / 20 + 1 ∧
      (loadM5 (CkptFile.valid rs)).1 = rs ∧
      (loadM5 (CkptFile.valid rs)).2.2 = rs.length / 20 + 1) ∧
    (∀ rs s, s ∈ (loadM2 (CkptFile.valid rs)).2.1 ↔
      (∃ r ∈ rs, r.result_id = some s) ∧ s ≠ "") :=
  ⟨⟨rfl, rfl, rfl, rfl⟩, fun _ => ⟨rfl, rfl, rfl, rfl⟩, fun rs s => mem_seedSeen rs s⟩

/-- C10: a successfully loaded checkpoint is retained wholesale — every record, including those with a missing or empty id, stays in the collection and is counted by the resume cursor; only truthy ids enter the seen set; a checkpoint with duplicate ids violates the uniqueness invariant after load, and an id-less record is retained with an empty dedup key and an empty seen set, so the invariant is not re-established over loaded contents. -/
theorem c10_checkpoint_loaded_ids :
    (∀ rs, (loadM2 (CkptFile.valid rs)).1 = rs ∧ (loadM5 (CkptFile.valid rs)).1 = rs ∧
      (loadM2 (CkptFile.valid rs)).2.2 = rs.length / 20 + 1) ∧
    (∀ rs s, s ∈ (loadM2 (CkptFile.valid rs)).2.1 ↔
      (∃ r ∈ rs, r.result_id = some s) ∧ s ≠ "") ∧
    ¬ (((loadM2 (CkptFile.valid [mkE (some "9"), mkE (some "9")])).1.map ridM2).Nodup) ∧
    (loadM2 (CkptFile.valid [mkE none])).1 = [mkE none] ∧ ridM2 (mkE none) = "" ∧
    (loadM2 (CkptFile.valid [mkE none])).2.1 = ∅ :=
  ⟨fun _ => ⟨rfl, rfl, rfl⟩, fun rs s => mem_seedSeen rs s, by decide, rfl, rfl, by decide⟩

/-- C5: every checkpoint write goes to the temporary path first and only os.replace mutates the real path, so after a save interrupted at any step the real file is either the old or the new complete version, and across any sequence of (possibly interrupted) saves starting from a complete file the real path always holds a complete JSON-array serialization. -/
theorem c5_atomic_checkpoint :
    (∀ fs rs stop, (save_data rs fs stop).real = fs.real ∨
      (save_data rs fs stop).real = FileVal.complete rs) ∧
    (∀ r0 t0 ops, ∃ rs, (runSaves ⟨FileVal.complete r0, t0⟩ ops).real = FileVal.complete rs) ∧
    (∀ r0 t0 ops, isCompleteArray (runSaves ⟨FileVal.complete r0, t0⟩ ops).real = true) := by
  refine ⟨?_, fun r0 t0 ops => runSaves_complete ops r0 t0, fun r0 t0 ops => ?_⟩
  · intro fs rs stop
    cases stop with
    | beforeOpen => exact Or.inl rfl
    | opened => exact Or.inl rfl
    | midWrite k => exact Or.inl rfl
    | written => exact Or.inl rfl
    | replaced => exact Or.inr rfl
  · obtain ⟨rs, h⟩ := runSaves_complete ops r0 t0
    rw [h]
    rfl

/-- C6: on the page with one main row (identifier "12345", institution "Test University", program sub-labels "Computer Science" and "PhD") followed by one detail row "Fall 2025 GPA 3.8 International", both parsers yield exactly one record with id "12345", program "Computer Science", degree "PhD", term "Fall 2025", gpa "3.8" and citizenship "International". -/
theorem c6_parse_example :
    parsePageM2 (Fetched.page (some [mainRow6, detailRow6])) = PageRes.ok [expected6] ∧
    parsePageM5 (Fetched.page (some [mainRow6, detailRow6])) = PageRes.ok [expected6] := by
  constructor <;> decide

/-- C7 counterexample: in module_5 a fetched page whose record container exists but holds zero rows yields outcome ok with zero records, not empty — refuting the claim that a present-but-empty container yields empty for every variant. -/
theorem c7_empty_cex :
    parsePageM5 (Fetched.page (some [])) = PageRes.ok [] ∧
    parsePageM5 (Fetched.page (some [])) ≠ PageRes.empty := by
  constructor
  · rfl
  · decide

/-- C7 amended: module_2 returns empty exactly when the record container is absent or holds zero rows; module_5 returns empty exactly when the container is absent — a present container with zero rows yields ok with zero records there. -/
theorem c7_empty_amended :
    (∀ f, parsePageM2 f = PageRes.empty ↔ f = Fetched.page none ∨ f = Fetched.page (some [])) ∧
    (∀ f, parsePageM5 f = PageRes.empty ↔ f = Fetched.page none) := by
  constructor
  · intro f
    cases f with
    | failed => simp [parsePageM2]
    | page tb =>
      cases tb with
      | none => simp [parsePageM2]
      | some rows =>
        cases rows with
        | nil => simp [parsePageM2]
        | cons r t => simp [parsePageM2]
  · intro f
    cases f with
    | failed => simp [parsePageM5]
    | page tb =>
      cases tb with
      | none => simp [parsePageM5]
      | some rows => simp [parsePageM5]

theorem baseDelay_mono {a b : Nat} (h : a ≤ b) : baseDelay a ≤ baseDelay b := by
  unfold baseDelay
  have h2 := pow_le_pow_right₀ (by norm_num : (1:ℚ) ≤ 2) h
  nlinarith

theorem delays_shift (att k : Nat) :
    baseDelay att :: (List.range k).map (fun i => baseDelay (att + 1 + i)) =
    (List.range (k + 1)).map (fun i => baseDelay (att + i)) := by
  rw [List.range_succ_eq_map, List.map_cons, List.map_map]
  congr 1
  apply List.map_congr_left
  intro a _
  simp only [Function.comp_apply]
  congr 1
  omega

theorem fetchM2Aux_spec (oracle : Nat → AttemptRes) :
    ∀ fuel att, (fetchM2Aux oracle fuel att).attempts ≤ fuel ∧
      ∃ k, (fetchM2Aux oracle fuel att).delays =
        (List.range k).map (fun i => baseDelay (att + i)) := by
  intro fuel
  induction fuel with
  | zero => exact fun att => ⟨le_refl 0, 0, rfl⟩
  | succ fuel ih =>
    intro att
    cases h : oracle att with
    | success =>
      have hstep : fetchM2Aux oracle (fuel + 1) att = ⟨true, 1, []⟩ := by
        simp [fetchM2Aux, h]
      rw [hstep]
      exact ⟨by show 1 ≤ fuel + 1; omega, 0, rfl⟩
    | httpErr c =>
      by_cases hc : retryB c = true
      · obtain ⟨ha, k, hd⟩ := ih (att + 1)
        have hstep : fetchM2Aux oracle (fuel + 1) att =
            ⟨(fetchM2Aux oracle fuel (att + 1)).ok,
             (fetchM2Aux oracle fuel (att + 1)).attempts + 1,
             baseDelay att :: (fetchM2Aux oracle fuel (att + 1)).delays⟩ := by
          simp [fetchM2Aux, h, hc]
        rw [hstep]
        refine ⟨by simp; omega, k + 1, ?_⟩
        simp only [hd]
        exact delays_shift att k
      · rw [Bool.not_eq_true] at hc
        have hstep : fetchM2Aux oracle (fuel + 1) att = ⟨false, 1, []⟩ := by
          simp [fetchM2Aux, h, hc]
        rw [hstep]
        exact ⟨by show 1 ≤ fuel + 1; omega, 0, rfl⟩
    | netErr =>
      obtain ⟨ha, k, hd⟩ := ih (att + 1)
      have hstep : fetchM2Aux oracle (fuel + 1) att =
          ⟨(fetchM2Aux oracle fuel (att + 1)).ok,
           (fetchM2Aux oracle fuel (att + 1)).attempts + 1,
           baseDelay att :: (fetchM2Aux oracle fuel (att + 1)).delays⟩ := by
        simp [fetchM2Aux, h]
      rw [hstep]
      refine ⟨by simp; omega, k + 1, ?_⟩
      simp only [hd]
      exact delays_shift att k
    | otherErr =>
      obtain ⟨ha, k, hd⟩ := ih (att + 1)
      have hstep : fetchM2Aux oracle (fuel + 1) att =
          ⟨(fetchM2Aux oracle fuel (att + 1)).ok,
           (fetchM2Aux oracle fuel (att + 1)).attempts + 1,
           baseDelay att :: (fetchM2Aux oracle fuel (att + 1)).delays⟩ := by
        simp [fetchM2Aux, h]
      rw [hstep]
      refine ⟨by simp; omega, k + 1, ?_⟩
      simp only [hd]
      exact delays_shift att k

theorem fetchM5Aux_spec (oracle : Nat → AttemptRes) :
    ∀ fuel att, (fetchM5Aux oracle fuel att).attempts ≤ fuel ∧
      ∃ k, (fetchM5Aux oracle fuel att).delays =
        (List.range k).map (fun i => baseDelay (att + i)) := by
  intro fuel
  induction fuel with
  | zero => exact fun att => ⟨le_refl 0, 0, rfl⟩
  | succ fuel ih =>
    intro att
    cases h : oracle att with
    | success =>
      have hstep : fetchM5Aux oracle (fuel + 1) att = ⟨true, 1, []⟩ := by
        simp [fetchM5Aux, h]
      rw [hstep]
      exact ⟨by show 1 ≤ fuel + 1; omega, 0, rfl⟩
    | httpErr c =>
      obtain ⟨ha, k, hd⟩ := ih (att + 1)
      have hstep : fetchM5Aux oracle (fuel + 1) att =
          ⟨(fetchM5Aux oracle fuel (att + 1)).ok,
           (fetchM5Aux oracle fuel (att + 1)).attempts + 1,
           baseDelay att :: (fetchM5Aux oracle fuel (att + 1)).delays⟩ := by
        simp [fetchM5Aux, h]
      rw [hstep]
      refine ⟨by simp; omega, k + 1, ?_⟩
      simp only [hd]
      exact delays_shift att k
    | netErr =>
      obtain ⟨ha, k, hd⟩ := ih (att + 1)
      have hstep : fetchM5Aux oracle (fuel + 1) att =
          ⟨(fetchM5Aux oracle fuel (att + 1)).ok,
           (fetchM5Aux oracle fuel (att + 1)).attempts + 1,
           baseDelay att :: (fetchM5Aux oracle fuel (att + 1)).delays⟩ := by
        simp [fetchM5Aux, h]
      rw [hstep]
      refine ⟨by simp; omega, k + 1, ?_⟩
      simp only [hd]
      exact delays_shift att k
    | otherErr =>
      obtain ⟨ha, k, hd⟩ := ih (att + 1)
      have hstep : fetchM5Aux oracle (fuel + 1) att =
          ⟨(fetchM5Aux oracle fuel (att + 1)).ok,
           (fetchM5Aux oracle fuel (att + 1)).attempts + 1,
           baseDelay att :: (fetchM5Aux oracle fuel (att + 1)).delays⟩ := by
        simp [fetchM5Aux, h]
      rw [hstep]
      refine ⟨by simp; omega, k + 1, ?_⟩
      simp only [hd]
      exact delays_shift att k

theorem range_map_baseDelay_pairwise (att k : Nat) :
    ((List.range k).map (fun i => baseDelay (att + i))).Pairwise (· ≤ ·) := by
  rw [List.pairwise_map]
  exact (List.pairwise_lt_range k).imp
    (fun hab => baseDelay_mono (by omega))

/-- C8: for every attempt-outcome oracle, both fetchers perform at most maxRetries + 1 attempts and the base backoff delays they sleep form a monotonically non-decreasing sequence. -/
theorem c8_backoff_monotone : ∀ (oracle : Nat → AttemptRes) (mr : Nat),
    ((fetchM2 oracle mr).attempts ≤ mr + 1 ∧
      (fetchM2 oracle mr).delays.Pairwise (· ≤ ·)) ∧
    ((fetchM5 oracle mr).attempts ≤ mr + 1 ∧
      (fetchM5 oracle mr).delays.Pairwise (· ≤ ·)) := by
  intro oracle mr
  obtain ⟨ha2, k2, hd2⟩ := fetchM2Aux_spec oracle (mr + 1) 0
  obtain ⟨ha5, k5, hd5⟩ := fetchM5Aux_spec oracle (mr + 1) 0
  refine ⟨⟨ha2, ?_⟩, ⟨ha5, ?_⟩⟩
  · rw [show fetchM2 oracle mr = fetchM2Aux oracle (mr + 1) 0 from rfl, hd2]
    exact range_map_baseDelay_pairwise 0 k2
  · rw [show fetchM5 oracle mr = fetchM5Aux oracle (mr + 1) 0 from rfl, hd5]
    exact range_map_baseDelay_pairwise 0 k5

theorem fetchM5Aux_const_http (c : Nat) :
    ∀ fuel att, fetchM5Aux (fun _ => AttemptRes.httpErr c) fuel att =
      ⟨false, fuel, (List.range fuel).map (fun i => baseDelay (att + i))⟩ := by
  intro fuel
  induction fuel with
  | zero => exact fun _ => rfl
  | succ fuel ih =>
    intro att
    have hstep : fetchM5Aux (fun _ => AttemptRes.httpErr c) (fuel + 1) att =
        ⟨(fetchM5Aux (fun _ => AttemptRes.httpErr c) fuel (att + 1)).ok,
         (fetchM5Aux (fun _ => AttemptRes.httpErr c) fuel (att + 1)).attempts + 1,
         baseDelay att :: (fetchM5Aux (fun _ => AttemptRes.httpErr c) fuel (att + 1)).delays⟩ := by
      simp [fetchM5Aux]
    rw [hstep, ih (att + 1)]
    refine congrArg (FetchTrace.mk false (fuel + 1)) ?_
    exact delays_shift att fuel

/-- C3 amended: the module_2/module_4 fetcher fails permanently on the first non-retryable HTTP status (any 4xx other than 429, and any status outside {429,500,502,503,504}) with exactly one attempt and no backoff, and a second attempt occurs only after a rate-limit/listed-5xx status or a network-level error; the module_5 fetcher instead retries every failure — on a persistent HTTP error it performs all maxRetries + 1 attempts with a full backoff sequence. -/
theorem c3_fetch_amended :
    (∀ (oracle : Nat → AttemptRes) (mr c : Nat), 400 ≤ c → c < 500 → c ≠ 429 →
      oracle 0 = AttemptRes.httpErr c → fetchM2 oracle mr = ⟨false, 1, []⟩) ∧
    (∀ (oracle : Nat → AttemptRes) (mr : Nat),
      2 ≤ (fetchM2 oracle mr).attempts → retryableOut (oracle 0)) ∧
    (∀ mr c, fetchM5 (fun _ => AttemptRes.httpErr c) mr =
      ⟨false, mr + 1, (List.range (mr + 1)).map baseDelay⟩) := by
  refine ⟨?_, ?_, ?_⟩
  · intro oracle mr c h4 h5 h429 h0
    have hc : retryB c = false := by
      unfold retryB
      simp only [Bool.or_eq_false_iff, beq_eq_false_iff_ne]
      omega
    show fetchM2Aux oracle (mr + 1) 0 = ⟨false, 1, []⟩
    simp [fetchM2Aux, h0, hc]
  · intro oracle mr h
    cases h0 : oracle 0 with
    | success =>
      have hstep : fetchM2 oracle mr = ⟨true, 1, []⟩ := by
        show fetchM2Aux oracle (mr + 1) 0 = _
        simp [fetchM2Aux, h0]
      rw [hstep] at h
      exact absurd h (by simp)
    | httpErr c =>
      by_cases hc : retryB c = true
      · exact Or.inl ⟨c, rfl, hc⟩
      · rw [Bool.not_eq_true] at hc
        have hstep : fetchM2 oracle mr = ⟨false, 1, []⟩ := by
          show fetchM2Aux oracle (mr + 1) 0 = _
          simp [fetchM2Aux, h0, hc]
        rw [hstep] at h
        exact absurd h (by simp)
    | netErr => exact Or.inr (Or.inl rfl)
    | otherErr => exact Or.inr (Or.inr rfl)
  · intro mr c
    show fetchM5Aux (fun _ => AttemptRes.httpErr c) (mr + 1) 0 = _
    rw [fetchM5Aux_const_http c (mr + 1) 0]
    refine congrArg (FetchTrace.mk false (mr + 1)) ?_
    apply List.map_congr_left
    intro a _
    rw [Nat.zero_add]

/-- C3 counterexample: on a page that always returns HTTP 404, the module_5 fetcher performs 5 attempts (retries = 4) before failing, refuting the claim that every variant fails permanently on a non-429 4xx with no further retries; module_2 stops after 1 attempt. -/
theorem c3_retry_cex :
    (fetchM5 (fun _ => AttemptRes.httpErr 404) 4).attempts = 5 ∧
    (fetchM5 (fun _ => AttemptRes.httpErr 404) 4).ok = false ∧
    (fetchM2 (fun _ => AttemptRes.httpErr 404) 4).attempts = 1 := by
  refine ⟨?_, ?_, ?_⟩ <;> rfl

theorem stepM2_bad_char (oracle : Nat → PageRes) (target maxBad : Nat) (st : CrawlSt) (c : Nat)
    (h1 : st.halted = false)
    (h2 : ¬(st.pending.length = 0 ∨ target ≤ st.results.length)) :
    (stepM2 oracle target maxBad st c).bad =
      if prodB (oracle (st.pending.getD (c % st.pending.length) 0)) then 0 else st.bad + 1 := by
  unfold stepM2
  rw [if_neg (by simp [h1]), if_neg h2]
  dsimp only
  split <;> split <;> first | rfl | (split <;> rfl)

theorem length_filter_eraseIdx (q : Nat → Bool) :
    ∀ (l : List Nat) (i : Nat), i < l.length →
      (l.filter q).length =
        ((l.eraseIdx i).filter q).length + (if q (l.getD i 0) then 1 else 0) := by
  intro l
  induction l with
  | nil => intro i h; simp at h
  | cons a t ih =>
    intro i h
    cases i with
    | zero =>
      cases hq : q a <;> simp [List.filter_cons, hq]
    | succ i =>
      have h' : i < t.length := by simpa using h
      have := ih i h'
      cases hq : q a <;> simp [List.filter_cons, hq, this] <;> omega

theorem mergeOneM2_length (acc : List Entry × Finset String) (e : Entry) :
    (mergeOneM2 acc e).1.length ≤ acc.1.length + 1 := by
  unfold mergeOneM2
  split
  · omega
  · simp

theorem mergeAllM2_length (es : List Entry) :
    ∀ acc : List Entry × Finset String,
      (es.foldl mergeOneM2 acc).1.length ≤ acc.1.length + es.length := by
  induction es with
  | nil => intro acc; simp
  | cons e t ih =>
    intro acc
    have h1 := mergeOneM2_length acc e
    have h2 := ih (mergeOneM2 acc e)
    rw [List.foldl_cons]
    simp only [List.length_cons]
    omega

theorem filter_append_single_pos (g : Nat → Bool) (l : List Nat) (a : Nat)
    (hg : g a = true) :
    ((l ++ [a]).filter g).length = (l.filter g).length + 1 := by
  rw [List.filter_append]
  simp [List.filter, hg]

theorem filter_append_single_neg (g : Nat → Bool) (l : List Nat) (a : Nat)
    (hg : g a = false) :
    ((l ++ [a]).filter g).length = (l.filter g).length := by
  rw [List.filter_append]
  simp [List.filter, hg]

theorem length_filter_eraseIdx_pos (q : Nat → Bool) (l : List Nat) (i : Nat)
    (h : i < l.length) (hq : q (l.getD i 0) = true) :
    (l.filter q).length = ((l.eraseIdx i).filter q).length + 1 := by
  have h1 := length_filter_eraseIdx q l i h
  rw [hq] at h1
  simpa using h1

theorem length_filter_eraseIdx_neg (q : Nat → Bool) (l : List Nat) (i : Nat)
    (h : i < l.length) (hq : q (l.getD i 0) = false) :
    (l.filter q).length = ((l.eraseIdx i).filter q).length := by
  have h1 := length_filter_eraseIdx q l i h
  rw [hq] at h1
  simpa using h1

theorem stepM2_key (oracle : Nat → PageRes) (K E workers maxBad C0 target : Nat)
    (st : CrawlSt) (c : Nat)
    (hK : ∀ q, K < q → prodB (oracle q) = false)
    (hE : ∀ q, (entriesOf (oracle q)).length ≤ E)
    (hmb : 1 ≤ maxBad) (hw : 1 ≤ workers) (hC : C0 < target)
    (hInv : invC2 oracle K E workers maxBad C0 st)
    (hlive : st.halted = false) :
    invC2 oracle K E workers maxBad C0 (stepM2 oracle target maxBad st c) ∧
    ((stepM2 oracle target maxBad st c).halted = true ∨
      measC oracle K maxBad (stepM2 oracle target maxBad st c) < measC oracle K maxBad st) := by
  obtain ⟨hpend, hbad', hhb, hres⟩ := hInv
  have hplen : st.pending.length = workers := hpend hlive
  have hbadlt : st.bad < maxBad := hbad' hlive
  have hreslt : st.results.length < target := by
    have h1 : st.results.length ≤ C0 := le_trans (Nat.le_add_right _ _) hres
    omega
  have hplen0 : 0 < st.pending.length := by omega
  have hcond : ¬(st.pending.length = 0 ∨ target ≤ st.results.length) := by omega
  have hidxlt : c % st.pending.length < st.pending.length := Nat.mod_lt c hplen0
  have hrlen : (st.pending.eraseIdx (c % st.pending.length)).length = st.pending.length - 1 := by
    rw [List.length_eraseIdx]
    simp [hidxlt]
  have hnp : prodB (oracle st.nextPage) = true → st.nextPage ≤ K := by
    intro h
    by_contra hgt
    rw [hK st.nextPage (by omega)] at h
    exact absurd h (by simp)
  cases hprod : prodB (oracle (st.pending.getD (c % st.pending.length) 0)) with
  | true =>
    have hA1 : (st.pending.filter (fun q => prodB (oracle q))).length =
        ((st.pending.eraseIdx (c % st.pending.length)).filter
          (fun q => prodB (oracle q))).length + 1 :=
      length_filter_eraseIdx_pos (fun q => prodB (oracle q)) st.pending
        (c % st.pending.length) hidxlt hprod
    have hmlen : (mergeAllM2 st.results st.seen
        (entriesOf (oracle (st.pending.getD (c % st.pending.length) 0)))).1.length ≤
        st.results.length + E := by
      have h1 := mergeAllM2_length
        (entriesOf (oracle (st.pending.getD (c % st.pending.length) 0))) (st.results, st.seen)
      have h2 := hE (st.pending.getD (c % st.pending.length) 0)
      unfold mergeAllM2
      dsimp at h1
      omega
    have hpot1 : 1 ≤ potC oracle K st := by
      unfold potC pendGood
      omega
    have hE1 : E * 1 ≤ E * potC oracle K st := Nat.mul_le_mul_left E hpot1
    have hmt : (mergeAllM2 st.results st.seen
        (entriesOf (oracle (st.pending.getD (c % st.pending.length) 0)))).1.length < target := by
      omega
    have hs : stepM2 oracle target maxBad st c =
        { results := (mergeAllM2 st.results st.seen
            (entriesOf (oracle (st.pending.getD (c % st.pending.length) 0)))).1,
          seen := (mergeAllM2 st.results st.seen
            (entriesOf (oracle (st.pending.getD (c % st.pending.length) 0)))).2,
          bad := 0, pagesDone := st.pagesDone + 1, nextPage := st.nextPage + 1,
          pending := st.pending.eraseIdx (c % st.pending.length) ++ [st.nextPage],
          halted := false } := by
      unfold stepM2
      rw [if_neg (by simp [hlive]), if_neg hcond]
      dsimp only
      rw [hprod]
      simp only [eq_self_iff_true, if_true]
      rw [if_neg (by omega : ¬(maxBad ≤ 0)), if_pos hmt]
    have hpot' : potC oracle K (stepM2 oracle target maxBad st c) + 1 ≤
        potC oracle K st := by
      rw [hs]
      unfold potC pendGood
      dsimp only
      cases hg : prodB (oracle st.nextPage) with
      | true =>
        have hnpK := hnp hg
        rw [filter_append_single_pos (fun q => prodB (oracle q)) _ _ hg]
        omega
      | false =>
        rw [filter_append_single_neg (fun q => prodB (oracle q)) _ _ hg]
        omega
    have hEmul : E * potC oracle K (stepM2 oracle target maxBad st c) + E ≤
        E * potC oracle K st := by
      have h1 := Nat.mul_le_mul_left E hpot'
      rwa [Nat.mul_add, Nat.mul_one] at h1
    have hMmul : (maxBad + 1) * potC oracle K (stepM2 oracle target maxBad st c) +
        (maxBad + 1) ≤ (maxBad + 1) * potC oracle K st := by
      have h1 := Nat.mul_le_mul_left (maxBad + 1) hpot'
      rwa [Nat.mul_add, Nat.mul_one] at h1
    refine ⟨⟨?_, ?_, ?_, ?_⟩, Or.inr ?_⟩
    · intro _
      rw [hs]
      dsimp only
      rw [List.length_append, hrlen]
      simp only [List.length_singleton]
      omega
    · intro _
      rw [hs]
      dsimp only
      omega
    · intro hcontra
      rw [hs] at hcontra
      exact absurd hcontra (by simp)
    · have hb2 : (stepM2 oracle target maxBad st c).results.length ≤
          st.results.length + E := by
        rw [hs]
        exact hmlen
      omega
    · unfold measC
      have hbadeq : (stepM2 oracle target maxBad st c).bad = 0 := by rw [hs]
      rw [hbadeq]
      omega
  | false =>
    have hA0 : (st.pending.filter (fun q => prodB (oracle q))).length =
        ((st.pending.eraseIdx (c % st.pending.length)).filter
          (fun q => prodB (oracle q))).length :=
      length_filter_eraseIdx_neg (fun q => prodB (oracle q)) st.pending
        (c % st.pending.length) hidxlt hprod
    by_cases hceil : maxBad ≤ st.bad + 1
    · have hs : stepM2 oracle target maxBad st c =
          { results := st.results, seen := st.seen,
            bad := st.bad + 1, pagesDone := st.pagesDone + 1, nextPage := st.nextPage,
            pending := [], halted := true } := by
        unfold stepM2
        rw [if_neg (by simp [hlive]), if_neg hcond]
        dsimp only
        rw [hprod]
        simp only [Bool.false_eq_true, if_false]
        rw [if_pos hceil]
      have hpot' : potC oracle K (stepM2 oracle target maxBad st c) ≤
          potC oracle K st := by
        rw [hs]
        unfold potC pendGood
        dsimp only
        simp only [List.filter_nil, List.length_nil]
        omega
      have hEmul : E * potC oracle K (stepM2 oracle target maxBad st c) ≤
          E * potC oracle K st := Nat.mul_le_mul_left E hpot'
      refine ⟨⟨?_, ?_, ?_, ?_⟩, Or.inl ?_⟩
      · intro hcontra
        rw [hs] at hcontra
        exact absurd hcontra (by simp)
      · intro hcontra
        rw [hs] at hcontra
        exact absurd hcontra (by simp)
      · intro _
        rw [hs]
        dsimp only
        omega
      · have hr : (stepM2 oracle target maxBad st c).results.length =
            st.results.length := by rw [hs]
        omega
      · rw [hs]
    · have hs : stepM2 oracle target maxBad st c =
          { results := st.results, seen := st.seen,
            bad := st.bad + 1, pagesDone := st.pagesDone + 1, nextPage := st.nextPage + 1,
            pending := st.pending.eraseIdx (c % st.pending.length) ++ [st.nextPage],
            halted := false } := by
        unfold stepM2
        rw [if_neg (by simp [hlive]), if_neg hcond]
        dsimp only
        rw [hprod]
        simp only [Bool.false_eq_true, if_false]
        rw [if_neg hceil, if_pos hreslt]
      have hpot' : potC oracle K (stepM2 oracle target maxBad st c) ≤
          potC oracle K st := by
        rw [hs]
        unfold potC pendGood
        dsimp only
        cases hg : prodB (oracle st.nextPage) with
        | true =>
          have hnpK := hnp hg
          rw [filter_append_single_pos (fun q => prodB (oracle q)) _ _ hg]
          omega
        | false =>
          rw [filter_append_single_neg (fun q => prodB (oracle q)) _ _ hg]
          omega
      have hEmul : E * potC oracle K (stepM2 oracle target maxBad st c) ≤
          E * potC oracle K st := Nat.mul_le_mul_left E hpot'
      have hMmul : (maxBad + 1) * potC oracle K (stepM2 oracle target maxBad st c) ≤
          (maxBad + 1) * potC oracle K st := Nat.mul_le_mul_left (maxBad + 1) hpot'
      refine ⟨⟨?_, ?_, ?_, ?_⟩, Or.inr ?_⟩
      · intro _
        rw [hs]
        dsimp only
        rw [List.length_append, hrlen]
        simp only [List.length_singleton]
        omega
      · intro _
        rw [hs]
        dsimp only
        omega
      · intro hcontra
        rw [hs] at hcontra
        exact absurd hcontra (by simp)
      · have hr : (stepM2 oracle target maxBad st c).results.length =
            st.results.length := by rw [hs]
        omega
      · unfold measC
        have hbadeq : (stepM2 oracle target maxBad st c).bad = st.bad + 1 := by rw [hs]
        rw [hbadeq]
        omega

theorem stepM2_of_halted (oracle : Nat → PageRes) (target maxBad : Nat) (st : CrawlSt)
    (c : Nat) (h : st.halted = true) : stepM2 oracle target maxBad st c = st := by
  unfold stepM2
  rw [if_pos h]

theorem runM2_inv (oracle : Nat → PageRes) (K E workers maxBad C0 target : Nat)
    (hK : ∀ q, K < q → prodB (oracle q) = false)
    (hE : ∀ q, (entriesOf (oracle q)).length ≤ E)
    (hmb : 1 ≤ maxBad) (hw : 1 ≤ workers) (hC : C0 < target) :
    ∀ (n : Nat) (st : CrawlSt) (sched : Nat → Nat),
      invC2 oracle K E workers maxBad C0 st →
      invC2 oracle K E workers maxBad C0 (runM2 oracle target maxBad sched st n) := by
  intro n
  induction n with
  | zero => exact fun st sched h => h
  | succ n ih =>
    intro st sched hInv
    show invC2 oracle K E workers maxBad C0
      (runM2 oracle target maxBad (fun i => sched (i + 1))
        (stepM2 oracle target maxBad st (sched 0)) n)
    cases hh : st.halted with
    | true =>
      rw [stepM2_of_halted oracle target maxBad st (sched 0) hh]
      exact ih st _ hInv
    | false =>
      exact ih _ _ (stepM2_key oracle K E workers maxBad C0 target st (sched 0)
        hK hE hmb hw hC hInv hh).1

theorem runM2_halts (oracle : Nat → PageRes) (K E workers maxBad C0 target : Nat)
    (hK : ∀ q, K < q → prodB (oracle q) = false)
    (hE : ∀ q, (entriesOf (oracle q)).length ≤ E)
    (hmb : 1 ≤ maxBad) (hw : 1 ≤ workers) (hC : C0 < target) :
    ∀ (m : Nat) (st : CrawlSt) (sched : Nat → Nat),
      invC2 oracle K E workers maxBad C0 st →
      measC oracle K maxBad st ≤ m →
      ∃ n, (runM2 oracle target maxBad sched st n).halted = true := by
  intro m
  induction m with
  | zero =>
    intro st sched hInv hm
    cases hh : st.halted with
    | true => exact ⟨0, hh⟩
    | false =>
      exfalso
      have hb := hInv.2.1 hh
      unfold measC at hm
      omega
  | succ m ih =>
    intro st sched hInv hm
    cases hh : st.halted with
    | true => exact ⟨0, hh⟩
    | false =>
      obtain ⟨hInv', hdec⟩ := stepM2_key oracle K E workers maxBad C0 target st (sched 0)
        hK hE hmb hw hC hInv hh
      cases hdec with
      | inl hhalt => exact ⟨1, hhalt⟩
      | inr hlt =>
        obtain ⟨n, hn⟩ := ih (stepM2 oracle target maxBad st (sched 0))
          (fun i => sched (i + 1)) hInv' (by omega)
        exact ⟨n + 1, hn⟩

theorem initSt_inv (oracle : Nat → PageRes) (K E workers maxBad : Nat)
    (start target : Nat) (hmb : 1 ≤ maxBad) :
    invC2 oracle K E workers maxBad (E * potC oracle K (initSt start workers))
      (initSt start workers) := by
  refine ⟨fun _ => ?_, fun _ => by simpa using hmb, fun h => by simp [initSt] at h, ?_⟩
  · simp [initSt]
  · simp [initSt]

theorem stepM5_of_halted (oracle : Nat → PageRes) (target : Nat) (st : CrawlSt)
    (c : Nat) (h : st.halted = true) : stepM5 oracle target st c = st := by
  unfold stepM5
  rw [if_pos h]

theorem stepM5_key (oracle : Nat → PageRes) (K target : Nat) (st : CrawlSt) (c : Nat)
    (hK : ∀ q, K < q → prodB (oracle q) = false)
    (hlive : st.halted = false) :
    (stepM5 oracle target st c).halted = true ∨
      measC5 oracle K (stepM5 oracle target st c) < measC5 oracle K st := by
  by_cases hcond : st.pending.length = 0 ∨ target ≤ st.results.length
  · left
    have hs : stepM5 oracle target st c = { st with halted := true } := by
      unfold stepM5
      rw [if_neg (by simp [hlive]), if_pos hcond]
    rw [hs]
  · right
    have hplen0 : 0 < st.pending.length := by omega
    have hidxlt : c % st.pending.length < st.pending.length := Nat.mod_lt c hplen0
    have hrlen : (st.pending.eraseIdx (c % st.pending.length)).length =
        st.pending.length - 1 := by
      rw [List.length_eraseIdx]
      simp [hidxlt]
    have hnp : prodB (oracle st.nextPage) = true → st.nextPage ≤ K := by
      intro h
      by_contra hgt
      rw [hK st.nextPage (by omega)] at h
      exact absurd h (by simp)
    cases hprod : prodB (oracle (st.pending.getD (c % st.pending.length) 0)) with
    | true =>
      have hA1 : (st.pending.filter (fun q => prodB (oracle q))).length =
          ((st.pending.eraseIdx (c % st.pending.length)).filter
            (fun q => prodB (oracle q))).length + 1 :=
        length_filter_eraseIdx_pos (fun q => prodB (oracle q)) st.pending
          (c % st.pending.length) hidxlt hprod
      by_cases hsub : (mergeAllM5 st.results st.seen
          (entriesOf (oracle (st.pending.getD (c % st.pending.length) 0)))).1.length < target
      · have hs : stepM5 oracle target st c =
            { results := (mergeAllM5 st.results st.seen
                (entriesOf (oracle (st.pending.getD (c % st.pending.length) 0)))).1,
              seen := (mergeAllM5 st.results st.seen
                (entriesOf (oracle (st.pending.getD (c % st.pending.length) 0)))).2,
              bad := 0, pagesDone := st.pagesDone + 1, nextPage := st.nextPage + 1,
              pending := st.pending.eraseIdx (c % st.pending.length) ++ [st.nextPage],
              halted := false } := by
          unfold stepM5
          rw [if_neg (by simp [hlive]), if_neg hcond]
          dsimp only
          rw [hprod]
          simp only [eq_self_iff_true, if_true]
          rw [if_pos ⟨by omega, hsub⟩]
        have hpot' : potC oracle K (stepM5 oracle target st c) + 1 ≤ potC oracle K st := by
          rw [hs]
          unfold potC pendGood
          dsimp only
          cases hg : prodB (oracle st.nextPage) with
          | true =>
            have hnpK := hnp hg
            rw [filter_append_single_pos (fun q => prodB (oracle q)) _ _ hg]
            omega
          | false =>
            rw [filter_append_single_neg (fun q => prodB (oracle q)) _ _ hg]
            omega
        have hMmul : 21 * potC oracle K (stepM5 oracle target st c) + 21 ≤
            21 * potC oracle K st := by
          have h1 := Nat.mul_le_mul_left 21 hpot'
          rwa [Nat.mul_add, Nat.mul_one] at h1
        have hpl : (stepM5 oracle target st c).pending.length = st.pending.length := by
          rw [hs]
          dsimp only
          rw [List.length_append, hrlen]
          simp only [List.length_singleton]
          omega
        have hbadeq : (stepM5 oracle target st c).bad = 0 := by rw [hs]
        unfold measC5
        rw [hbadeq, hpl]
        omega
      · have hs : stepM5 oracle target st c =
            { results := (mergeAllM5 st.results st.seen
                (entriesOf (oracle (st.pending.getD (c % st.pending.length) 0)))).1,
              seen := (mergeAllM5 st.results st.seen
                (entriesOf (oracle (st.pending.getD (c % st.pending.length) 0)))).2,
              bad := 0, pagesDone := st.pagesDone + 1, nextPage := st.nextPage,
              pending := st.pending.eraseIdx (c % st.pending.length),
              halted := false } := by
          unfold stepM5
          rw [if_neg (by simp [hlive]), if_neg hcond]
          dsimp only
          rw [hprod]
          simp only [eq_self_iff_true, if_true]
          rw [if_neg (by intro hcon; exact hsub hcon.2)]
        have hpot' : potC oracle K (stepM5 oracle target st c) + 1 ≤ potC oracle K st := by
          rw [hs]
          unfold potC pendGood
          dsimp only
          omega
        have hMmul : 21 * potC oracle K (stepM5 oracle target st c) + 21 ≤
            21 * potC oracle K st := by
          have h1 := Nat.mul_le_mul_left 21 hpot'
          rwa [Nat.mul_add, Nat.mul_one] at h1
        have hpl : (stepM5 oracle target st c).pending.length + 1 = st.pending.length := by
          rw [hs]
          dsimp only
          omega
        have hbadeq : (stepM5 oracle target st c).bad = 0 := by rw [hs]
        unfold measC5
        rw [hbadeq]
        omega
    | false =>
      have hA0 : (st.pending.filter (fun q => prodB (oracle q))).length =
          ((st.pending.eraseIdx (c % st.pending.length)).filter
            (fun q => prodB (oracle q))).length :=
        length_filter_eraseIdx_neg (fun q => prodB (oracle q)) st.pending
          (c % st.pending.length) hidxlt hprod
      by_cases hsub : st.bad + 1 < 20 ∧ st.results.length < target
      · have hs : stepM5 oracle target st c =
            { results := st.results, seen := st.seen,
              bad := st.bad + 1, pagesDone := st.pagesDone + 1, nextPage := st.nextPage + 1,
              pending := st.pending.eraseIdx (c % st.pending.length) ++ [st.nextPage],
              halted := false } := by
          unfold stepM5
          rw [if_neg (by simp [hlive]), if_neg hcond]
          dsimp only
          rw [hprod]
          simp only [Bool.false_eq_true, if_false]
          rw [if_pos hsub]
        have hpot' : potC oracle K (stepM5 oracle target st c) ≤ potC oracle K st := by
          rw [hs]
          unfold potC pendGood
          dsimp only
          cases hg : prodB (oracle st.nextPage) with
          | true =>
            have hnpK := hnp hg
            rw [filter_append_single_pos (fun q => prodB (oracle q)) _ _ hg]
            omega
          | false =>
            rw [filter_append_single_neg (fun q => prodB (oracle q)) _ _ hg]
            omega
        have hMmul : 21 * potC oracle K (stepM5 oracle target st c) ≤
            21 * potC oracle K st := Nat.mul_le_mul_left 21 hpot'
        have hpl : (stepM5 oracle target st c).pending.length = st.pending.length := by
          rw [hs]
          dsimp only
          rw [List.length_append, hrlen]
          simp only [List.length_singleton]
          omega
        have hbadeq : (stepM5 oracle target st c).bad = st.bad + 1 := by rw [hs]
        unfold measC5
        rw [hbadeq, hpl]
        have hb20 : st.bad + 1 < 20 := hsub.1
        omega
      · have hs : stepM5 oracle target st c =
            { results := st.results, seen := st.seen,
              bad := st.bad + 1, pagesDone := st.pagesDone + 1, nextPage := st.nextPage,
              pending := st.pending.eraseIdx (c % st.pending.length),
              halted := false } := by
          unfold stepM5
          rw [if_neg (by simp [hlive]), if_neg hcond]
          dsimp only
          rw [hprod]
          simp only [Bool.false_eq_true, if_false]
          rw [if_neg hsub]
        have hpot' : potC oracle K (stepM5 oracle target st c) ≤ potC oracle K st := by
          rw [hs]
          unfold potC pendGood
          dsimp only
          omega
        have hMmul : 21 * potC oracle K (stepM5 oracle target st c) ≤
            21 * potC oracle K st := Nat.mul_le_mul_left 21 hpot'
        have hpl : (stepM5 oracle target st c).pending.length + 1 = st.pending.length := by
          rw [hs]
          dsimp only
          omega
        have hbadeq : (stepM5 oracle target st c).bad = st.bad + 1 := by rw [hs]
        unfold measC5
        rw [hbadeq]
        omega

theorem runM5_halts (oracle : Nat → PageRes) (K target : Nat)
    (hK : ∀ q, K < q → prodB (oracle q) = false) :
    ∀ (m : Nat) (st : CrawlSt) (sched : Nat → Nat),
      measC5 oracle K st ≤ m →
      ∃ n, (runM5 oracle target sched st n).halted = true := by
  intro m
  induction m with
  | zero =>
    intro st sched hm
    cases hh : st.halted with
    | true => exact ⟨0, hh⟩
    | false =>
      cases stepM5_key oracle K target st (sched 0) hK hh with
      | inl hhalt => exact ⟨1, hhalt⟩
      | inr hlt => exact absurd hlt (by omega)
  | succ m ih =>
    intro st sched hm
    cases hh : st.halted with
    | true => exact ⟨0, hh⟩
    | false =>
      cases stepM5_key oracle K target st (sched 0) hK hh with
      | inl hhalt => exact ⟨1, hhalt⟩
      | inr hlt =>
        obtain ⟨n, hn⟩ := ih (stepM5 oracle target st (sched 0))
          (fun i => sched (i + 1)) (by omega)
        exact ⟨n + 1, hn⟩

theorem stepM5_bad (oracle : Nat → PageRes) (target : Nat) (st : CrawlSt) (c : Nat)
    (h1 : st.halted = false)
    (h2 : ¬(st.pending.length = 0 ∨ target ≤ st.results.length)) :
    (stepM5 oracle target st c).bad =
      if prodB (oracle (st.pending.getD (c % st.pending.length) 0)) then 0 else st.bad + 1 := by
  unfold stepM5
  rw [if_neg (by simp [h1]), if_neg h2]
  dsimp only
  split <;> split <;> rfl

theorem stepM5_nosubmit (oracle : Nat → PageRes) (target : Nat) (st : CrawlSt) (c : Nat)
    (h1 : st.halted = false)
    (h2 : ¬(st.pending.length = 0 ∨ target ≤ st.results.length))
    (h20 : 20 ≤ (stepM5 oracle target st c).bad) :
    (stepM5 oracle target st c).pending.length + 1 = st.pending.length := by
  have hplen0 : 0 < st.pending.length := by omega
  have hidxlt : c % st.pending.length < st.pending.length := Nat.mod_lt c hplen0
  have hrlen : (st.pending.eraseIdx (c % st.pending.length)).length =
      st.pending.length - 1 := by
    rw [List.length_eraseIdx]
    simp [hidxlt]
  have hbadc := stepM5_bad oracle target st c h1 h2
  cases hprod : prodB (oracle (st.pending.getD (c % st.pending.length) 0)) with
  | true =>
    rw [hprod] at hbadc
    simp only [eq_self_iff_true, if_true] at hbadc
    omega
  | false =>
    rw [hprod] at hbadc
    simp only [Bool.false_eq_true, if_false] at hbadc
    have hs : stepM5 oracle target st c =
        { results := st.results, seen := st.seen,
          bad := st.bad + 1, pagesDone := st.pagesDone + 1, nextPage := st.nextPage,
          pending := st.pending.eraseIdx (c % st.pending.length),
          halted := false } := by
      unfold stepM5
      rw [if_neg (by simp [h1]), if_neg h2]
      dsimp only
      rw [hprod]
      simp only [Bool.false_eq_true, if_false]
      rw [if_neg (by omega)]
    rw [hs]
    dsimp only
    omega

theorem mergeOneM2_inv (acc : List Entry × Finset String) (e : Entry)
    (h : accInvM2 acc) : accInvM2 (mergeOneM2 acc e) := by
  obtain ⟨hnd, hne, hseen⟩ := h
  unfold mergeOneM2
  split
  · exact ⟨hnd, hne, hseen⟩
  · rename_i hc
    push_neg at hc
    obtain ⟨hc1, hc2⟩ := hc
    refine ⟨?_, ?_, ?_⟩
    · rw [List.map_append]
      rw [List.nodup_append]
      refine ⟨hnd, List.nodup_singleton _, ?_⟩
      intro a ha hb
      simp only [List.map_cons, List.map_nil, List.mem_singleton] at hb
      subst hb
      obtain ⟨e', he', heq⟩ := List.mem_map.mp ha
      rw [← heq] at hc2
      exact hc2 (hseen e' he')
    · intro e' he'
      rcases List.mem_append.mp he' with he' | he'
      · exact hne e' he'
      · rw [List.mem_singleton.mp he']
        exact hc1
    · intro e' he'
      rcases List.mem_append.mp he' with he' | he'
      · exact Finset.mem_insert_of_mem (hseen e' he')
      · rw [List.mem_singleton.mp he']
        exact Finset.mem_insert_self _ _

theorem mergeAllM2_inv (es : List Entry) :
    ∀ acc : List Entry × Finset String, accInvM2 acc →
      accInvM2 (es.foldl mergeOneM2 acc) := by
  induction es with
  | nil => exact fun acc h => h
  | cons e t ih =>
    intro acc h
    rw [List.foldl_cons]
    exact ih _ (mergeOneM2_inv acc e h)

theorem stepM2_accInv (oracle : Nat → PageRes) (target maxBad : Nat) (st : CrawlSt)
    (c : Nat) (h : accInvM2 (st.results, st.seen)) :
    accInvM2 ((stepM2 oracle target maxBad st c).results,
      (stepM2 oracle target maxBad st c).seen) := by
  unfold stepM2
  split
  · exact h
  · split
    · exact h
    · dsimp only
      split <;> split <;> try split
      all_goals
        dsimp only
        first
        | exact mergeAllM2_inv
            (entriesOf (oracle (st.pending.getD (c % st.pending.length) 0)))
            (st.results, st.seen) h
        | exact h

theorem runM2_accInv (oracle : Nat → PageRes) (target maxBad : Nat) :
    ∀ (n : Nat) (st : CrawlSt) (sched : Nat → Nat),
      accInvM2 (st.results, st.seen) →
      accInvM2 ((runM2 oracle target maxBad sched st n).results,
        (runM2 oracle target maxBad sched st n).seen) := by
  intro n
  induction n with
  | zero => exact fun st sched h => h
  | succ n ih =>
    intro st sched h
    exact ih _ _ (stepM2_accInv oracle target maxBad st (sched 0) h)

theorem mergeOneM5_inv (acc : List Entry × Finset String) (e : Entry)
    (hg : goodEntry e) (h : accInvM5 acc) : accInvM5 (mergeOneM5 acc e) := by
  obtain ⟨hnd, hgood, hseen⟩ := h
  unfold mergeOneM5
  split
  · exact ⟨hnd, hgood, hseen⟩
  · rename_i hc
    push_neg at hc
    obtain ⟨_, hc2⟩ := hc
    refine ⟨?_, ?_, ?_⟩
    · rw [List.map_append]
      rw [List.nodup_append]
      refine ⟨hnd, List.nodup_singleton _, ?_⟩
      intro a ha hb
      simp only [List.map_cons, List.map_nil, List.mem_singleton] at hb
      subst hb
      obtain ⟨e', he', heq⟩ := List.mem_map.mp ha
      rw [← heq] at hc2
      exact hc2 (hseen e' he')
    · intro e' he'
      rcases List.mem_append.mp he' with he' | he'
      · exact hgood e' he'
      · rw [List.mem_singleton.mp he']
        exact hg
    · intro e' he'
      rcases List.mem_append.mp he' with he' | he'
      · exact Finset.mem_insert_of_mem (hseen e' he')
      · rw [List.mem_singleton.mp he']
        exact Finset.mem_insert_self _ _

theorem mergeAllM5_inv (es : List Entry) :
    ∀ acc : List Entry × Finset String, (∀ e ∈ es, goodEntry e) → accInvM5 acc →
      accInvM5 (es.foldl mergeOneM5 acc) := by
  induction es with
  | nil => exact fun acc _ h => h
  | cons e t ih =>
    intro acc hg h
    rw [List.foldl_cons]
    exact ih _ (fun e' he' => hg e' (List.mem_cons_of_mem e he'))
      (mergeOneM5_inv acc e (hg e (List.mem_cons_self e t)) h)

theorem stepM5_accInv (oracle : Nat → PageRes) (target : Nat) (st : CrawlSt)
    (c : Nat) (hor : ∀ q, ∀ e ∈ entriesOf (oracle q), goodEntry e)
    (h : accInvM5 (st.results, st.seen)) :
    accInvM5 ((stepM5 oracle target st c).results, (stepM5 oracle target st c).seen) := by
  unfold stepM5
  split
  · exact h
  · split
    · exact h
    · dsimp only
      split <;> split
      all_goals
        dsimp only
        first
        | exact mergeAllM5_inv
            (entriesOf (oracle (st.pending.getD (c % st.pending.length) 0)))
            (st.results, st.seen)
            (hor (st.pending.getD (c % st.pending.length) 0)) h
        | exact h

theorem runM5_accInv (oracle : Nat → PageRes) (target : Nat)
    (hor : ∀ q, ∀ e ∈ entriesOf (oracle q), goodEntry e) :
    ∀ (n : Nat) (st : CrawlSt) (sched : Nat → Nat),
      accInvM5 (st.results, st.seen) →
      accInvM5 ((runM5 oracle target sched st n).results,
        (runM5 oracle target sched st n).seen) := by
  intro n
  induction n with
  | zero => exact fun st sched h => h
  | succ n ih =>
    intro st sched h
    exact ih _ _ (stepM5_accInv oracle target st (sched 0) hor h)

theorem resultHrefDigits_ne (h : String) (s : String)
    (hs : resultHrefDigits h = some s) : s ≠ "" := by
  unfold resultHrefDigits at hs
  dsimp only at hs
  split at hs
  · rename_i hcond
    obtain ⟨_, hne, _⟩ := hcond
    rw [Option.some_inj] at hs
    subst hs
    intro hempty
    apply hne
    have := congrArg String.data hempty
    simpa using this
  · exact absurd hs (by simp)

theorem rowLink_good (r : Row) (hm : isMainRow r = true) :
    ∃ s, rowLink r = some s ∧ s ≠ "" := by
  unfold isMainRow at hm
  rw [Bool.and_eq_true] at hm
  obtain ⟨-, hsome⟩ := hm
  rw [Option.isSome_iff_exists] at hsome
  obtain ⟨h, hh⟩ := hsome
  have hpred := List.find?_some hh
  rw [Option.isSome_iff_exists] at hpred
  obtain ⟨s, hs⟩ := hpred
  refine ⟨s, ?_, resultHrefDigits_ne h s hs⟩
  unfold rowLink
  rw [show rowHref r = some h from hh]
  exact hs

theorem parseRowsM5Aux_good :
    ∀ (fuel : Nat) (rows : List Row) (e : Entry),
      e ∈ parseRowsM5Aux fuel rows → goodEntry e := by
  intro fuel
  induction fuel with
  | zero =>
    intro rows e h
    simp [parseRowsM5Aux] at h
  | succ fuel ih =>
    intro rows e h
    cases rows with
    | nil => simp [parseRowsM5Aux] at h
    | cons r rest =>
      by_cases hm : isMainRow r = true
      · rcases hsd : scanDetailM5 rest [] "" with ⟨blob, com, rest2⟩
        rw [parseRowsM5Aux, if_pos hm, hsd] at h
        rcases List.mem_cons.mp h with rfl | h2
        · obtain ⟨s, hl, hne⟩ := rowLink_good r hm
          exact ⟨s, by rw [show (entryOfM5 r blob com).result_id = rowLink r from rfl, hl], hne⟩
        · exact ih rest2 e h2
      · rw [parseRowsM5Aux, if_neg hm] at h
        exact ih rest e h

theorem oracleOfM5_good (pages : Nat → Fetched) :
    ∀ q, ∀ e ∈ entriesOf (oracleOfM5 pages q), goodEntry e := by
  intro q e he
  unfold oracleOfM5 parsePageM5 at he
  cases hp : pages q with
  | failed => rw [hp] at he; simp [entriesOf] at he
  | page tb =>
    cases tb with
    | none => rw [hp] at he; simp [entriesOf] at he
    | some rows =>
      rw [hp] at he
      simp only [entriesOf] at he
      exact parseRowsM5Aux_good rows.length rows e he

/-- C1: for every page-content source, schedule, target, resume page and worker count, the accumulated record collection of a crawl run contains no two records with the same id and no record with an empty id, in both module_2 and module_5 (module_5 fed through its parser, whose records always carry a nonempty id); and the module_2 accumulation step leaves the state unchanged on a record whose id is empty or already seen. -/
theorem c1_unique_ids :
    (∀ (pages : Nat → Fetched) (target start workers n : Nat) (sched : Nat → Nat),
      ((runM2 (oracleOfM2 pages) target (maxBadM2 workers) sched
          (initSt start workers) n).results.map ridM2).Nodup ∧
      ∀ e ∈ (runM2 (oracleOfM2 pages) target (maxBadM2 workers) sched
          (initSt start workers) n).results, ridM2 e ≠ "") ∧
    (∀ (pages : Nat → Fetched) (target start workers n : Nat) (sched : Nat → Nat),
      ((runM5 (oracleOfM5 pages) target sched
          (initSt start workers) n).results.map ridM5).Nodup ∧
      ∀ e ∈ (runM5 (oracleOfM5 pages) target sched
          (initSt start workers) n).results, ridM5 e ≠ "") ∧
    (∀ (rs : List Entry) (seen : Finset String) (e : Entry),
      ridM2 e = "" ∨ ridM2 e ∈ seen → mergeOneM2 (rs, seen) e = (rs, seen)) := by
  refine ⟨?_, ?_, ?_⟩
  · intro pages target start workers n sched
    have h0 : accInvM2 ((initSt start workers).results, (initSt start workers).seen) :=
      ⟨List.nodup_nil, by simp [initSt], by simp [initSt]⟩
    obtain ⟨hnd, hne, -⟩ :=
      runM2_accInv (oracleOfM2 pages) target (maxBadM2 workers) n (initSt start workers) sched h0
    exact ⟨hnd, hne⟩
  · intro pages target start workers n sched
    have h0 : accInvM5 ((initSt start workers).results, (initSt start workers).seen) :=
      ⟨List.nodup_nil, by simp [initSt], by simp [initSt]⟩
    obtain ⟨hnd, hgood, -⟩ :=
      runM5_accInv (oracleOfM5 pages) target (oracleOfM5_good pages) n
        (initSt start workers) sched h0
    refine ⟨hnd, ?_⟩
    intro e he
    obtain ⟨s, hid, hsne⟩ := hgood e he
    unfold ridM5
    rw [hid]
    exact hsne
  · intro rs seen e hcond
    unfold mergeOneM2
    rw [if_pos hcond]

/-- Witness for C1 at a concrete input: the accumulation step drops a record with a missing id. -/
theorem c1_unique_ids_witness :
    mergeOneM2 ([], (∅ : Finset String)) (mkE none) = ([], ∅) :=
  c1_unique_ids.2.2 [] ∅ (mkE none) (Or.inl rfl)

/-- C2 amended: module_2 — for every page source that is non-productive beyond page K and a target beyond the source yield, every schedule halts the crawl with the consecutive-bad-page counter exactly at max(12, 4*workers), the counter staying below the ceiling at every live state; module_5 — the crawl halts for every such source, but its replacement-submission cutoff is the constant 20: once the counter reaches 20 no replacement is submitted and the loop drains, as the all-empty 4-worker run shows (counter 20 while live, halting at step 24 with counter 23). -/
theorem c2_termination_amended :
    (∀ (oracle : Nat → PageRes) (sched : Nat → Nat) (K E target start workers : Nat),
      (∀ q, K < q → prodB (oracle q) = false) →
      (∀ q, (entriesOf (oracle q)).length ≤ E) →
      1 ≤ workers →
      E * potC oracle K (initSt start workers) < target →
      (∃ n, (runM2 oracle target (maxBadM2 workers) sched (initSt start workers) n).halted = true ∧
        (runM2 oracle target (maxBadM2 workers) sched (initSt start workers) n).bad =
          maxBadM2 workers) ∧
      ∀ m, (runM2 oracle target (maxBadM2 workers) sched (initSt start workers) m).halted = false →
        (runM2 oracle target (maxBadM2 workers) sched (initSt start workers) m).bad <
          maxBadM2 workers) ∧
    (∀ (oracle : Nat → PageRes) (sched : Nat → Nat) (K target start workers : Nat),
      (∀ q, K < q → prodB (oracle q) = false) →
      ∃ n, (runM5 oracle target sched (initSt start workers) n).halted = true) ∧
    (∀ (oracle : Nat → PageRes) (target : Nat) (st : CrawlSt) (c : Nat),
      st.halted = false → ¬(st.pending.length = 0 ∨ target ≤ st.results.length) →
      20 ≤ (stepM5 oracle target st c).bad →
      (stepM5 oracle target st c).pending.length + 1 = st.pending.length) ∧
    (maxBadM2 4 = 16 ∧
      (runM5 oracleEmpty 100 fifoSched (initSt 1 4) 20).bad = 20 ∧
      (runM5 oracleEmpty 100 fifoSched (initSt 1 4) 24).halted = true ∧
      (runM5 oracleEmpty 100 fifoSched (initSt 1 4) 24).bad = 23) := by
  refine ⟨?_, ?_, ?_, ?_, ?_, ?_, ?_⟩
  · intro oracle sched K E target start workers hK hE hw htarget
    have hmb : 1 ≤ maxBadM2 workers :=
      le_trans (by norm_num) (le_max_left 12 (workers * 4))
    have hInv0 := initSt_inv oracle K E workers (maxBadM2 workers) start target hmb
    constructor
    · obtain ⟨n, hn⟩ := runM2_halts oracle K E workers (maxBadM2 workers)
        (E * potC oracle K (initSt start workers)) target hK hE hmb hw htarget
        (measC oracle K (maxBadM2 workers) (initSt start workers))
        (initSt start workers) sched hInv0 (le_refl _)
      have hInvn := runM2_inv oracle K E workers (maxBadM2 workers)
        (E * potC oracle K (initSt start workers)) target hK hE hmb hw htarget
        n (initSt start workers) sched hInv0
      exact ⟨n, hn, hInvn.2.2.1 hn⟩
    · intro m hm
      have hInvm := runM2_inv oracle K E workers (maxBadM2 workers)
        (E * potC oracle K (initSt start workers)) target hK hE hmb hw htarget
        m (initSt start workers) sched hInv0
      exact hInvm.2.1 hm
  · intro oracle sched K target start workers hK
    exact runM5_halts oracle K target hK (measC5 oracle K (initSt start workers))
      (initSt start workers) sched (le_refl _)
  · exact fun oracle target st c h1 h2 h20 => stepM5_nosubmit oracle target st c h1 h2 h20
  · decide
  · decide
  · decide
  · decide

/-- Witness for C2 at a concrete input: the all-empty source with one worker halts module_2 at the ceiling, and halts module_5. -/
theorem c2_termination_amended_witness :
    (∃ n, (runM2 oracleEmpty 1 (maxBadM2 1) fifoSched (initSt 1 1) n).halted = true ∧
      (runM2 oracleEmpty 1 (maxBadM2 1) fifoSched (initSt 1 1) n).bad = maxBadM2 1) ∧
    (∃ n, (runM5 oracleEmpty 1 fifoSched (initSt 1 1) n).halted = true) := by
  constructor
  · exact (c2_termination_amended.1 oracleEmpty fifoSched 0 0 1 1 1
      (fun q _ => rfl) (fun q => le_refl 0) (le_refl 1) (by decide)).1
  · exact c2_termination_amended.2.1 oracleEmpty fifoSched 0 1 1 1 (fun q _ => rfl)

/-- C2 counterexample: with 4 workers the claimed ceiling is max(12,16) = 16, yet module_5 all-empty run is still live with counter 16 and keeps processing (counter 17 next) — the loop does not terminate when the counter reaches max(12, 4*workers). -/
theorem c2_ceiling_cex :
    maxBadM2 4 = 16 ∧
    (runM5 oracleEmpty 100 fifoSched (initSt 1 4) 16).bad = 16 ∧
    (runM5 oracleEmpty 100 fifoSched (initSt 1 4) 16).halted = false ∧
    (runM5 oracleEmpty 100 fifoSched (initSt 1 4) 17).bad = 17 := by
  refine ⟨?_, ?_, ?_, ?_⟩ <;> decide

/-- C4 amended: after a completed page task the counter is reset to zero if and only if the page outcome is ok with a nonempty parsed-entry list — regardless of whether any entry is new — and is incremented by one on every other outcome (empty, error/exhausted fetch, ok with zero parsed entries), in both module_2 and module_5. -/
theorem c4_counter_amended : ∀ (oracle : Nat → PageRes) (target maxBad : Nat) (st : CrawlSt) (c : Nat),
    st.halted = false → ¬(st.pending.length = 0 ∨ target ≤ st.results.length) →
    (((stepM2 oracle target maxBad st c).bad = 0 ↔
        prodB (oracle (st.pending.getD (c % st.pending.length) 0)) = true) ∧
      (prodB (oracle (st.pending.getD (c % st.pending.length) 0)) = false →
        (stepM2 oracle target maxBad st c).bad = st.bad + 1)) ∧
    (((stepM5 oracle target st c).bad = 0 ↔
        prodB (oracle (st.pending.getD (c % st.pending.length) 0)) = true) ∧
      (prodB (oracle (st.pending.getD (c % st.pending.length) 0)) = false →
        (stepM5 oracle target st c).bad = st.bad + 1)) := by
  intro oracle target maxBad st c h1 h2
  have hb2 := stepM2_bad_char oracle target maxBad st c h1 h2
  have hb5 := stepM5_bad oracle target st c h1 h2
  cases hprod : prodB (oracle (st.pending.getD (c % st.pending.length) 0)) with
  | true =>
    rw [hprod] at hb2 hb5
    simp only [eq_self_iff_true, if_true] at hb2 hb5
    refine ⟨⟨?_, ?_⟩, ?_, ?_⟩
    · simp [hb2]
    · intro hfalse
      exact absurd hfalse (by simp)
    · simp [hb5]
    · intro hfalse
      exact absurd hfalse (by simp)
  | false =>
    rw [hprod] at hb2 hb5
    simp only [Bool.false_eq_true, if_false] at hb2 hb5
    refine ⟨⟨?_, ?_⟩, ?_, ?_⟩
    · rw [hb2]
      simp
    · intro _
      exact hb2
    · rw [hb5]
      simp
    · intro _
      exact hb5

/-- Witness for C4 at a concrete input: an empty page increments the counter by one. -/
theorem c4_counter_amended_witness :
    (stepM2 oracleEmpty 5 (maxBadM2 1) (initSt 1 1) 0).bad = (initSt 1 1).bad + 1 :=
  ((c4_counter_amended oracleEmpty 5 (maxBadM2 1) (initSt 1 1) 0 rfl (by decide)).1).2 rfl

/-- C4 counterexample: page 3 re-observes the single record captured from page 1, so it yields zero new records, yet the step resets the counter from 1 to 0 while the collection is unchanged — refuting reset-iff-at-least-one-new-record. -/
theorem c4_reset_cex :
    (runM2 oracleC4 100 (maxBadM2 1) fifoSched (initSt 1 1) 2).bad = 1 ∧
    (runM2 oracleC4 100 (maxBadM2 1) fifoSched (initSt 1 1) 3).bad = 0 ∧
    (runM2 oracleC4 100 (maxBadM2 1) fifoSched (initSt 1 1) 3).results =
      (runM2 oracleC4 100 (maxBadM2 1) fifoSched (initSt 1 1) 2).results ∧
    (runM2 oracleC4 100 (maxBadM2 1) fifoSched (initSt 1 1) 2).results.length = 1 := by
  refine ⟨?_, ?_, ?_, ?_⟩ <;> decide

/-- Witness for C3 at a concrete input: a 404 on the first attempt makes the
module_2 fetcher fail permanently with one attempt and no backoff. -/
theorem c3_fetch_amended_witness :
    fetchM2 (fun _ => AttemptRes.httpErr 404) 3 = ⟨false, 1, []⟩ :=
  c3_fetch_amended.1 (fun _ => AttemptRes.httpErr 404) 3 404 (by decide) (by decide)
    (by decide) rfl
